import Mathlib

/-!
# Verification of the pygments `compiled.py` lexer tables against the spec

The repository ships the rule tables of four lexers (`CLexer`, `CppLexer`,
`DelphiLexer`, `JavaLexer`) in `src/pygments/lexers/compiled.py`.  The
scanning engine itself (`pygments/lexer.py`: `RegexLexer`, `include`,
`bygroups`, `using`) is part of the pygments project but is not present
under `src/`; following the spec, the engine is modelled here from the
spec's description (stack-based, table-driven, first-match-wins regex
scanner with inclusion expansion, grouped emission, delegation and
single-character fallback recovery).  The four rule tables are transcribed
from the source file; each transcribed pattern carries the original regex
as a comment.
-/

/-- Token kinds appearing in the four tables, plus the reserved `error`
kind used by fallback recovery and the scenario kinds of the spec. -/
inductive Tok where
  | text
  | comment
  | commentPreproc
  | keyword
  | keywordType
  | keywordReserved
  | keywordConstant
  | keywordPseudo
  | name
  | nameLabel
  | nameFunction
  | nameClass
  | nameBuiltin
  | nameNamespace
  | nameDecorator
  | str
  | strChar
  | strEscape
  | number
  | numberFloat
  | numberHex
  | numberOct
  | numberInteger
  | operator
  | error
  | word
deriving DecidableEq

/-- One item of a regex character class: a literal character, a range, or
one of the predefined classes `\s`, `\S`, `\d`, `\w`. -/
inductive Cls where
  | chr (c : Char)
  | range (lo hi : Char)
  | space
  | nspace
  | digit
  | wordc
deriving DecidableEq

/-- Modelled from the spec: deep embedding of the regex dialect used by the
four rule tables (Python `re` features actually occurring in
`compiled.py`): literals, classes, alternation (leftmost priority),
greedy/lazy repetition, capture groups, lookahead, single-character
lookbehind, `^`, `\b` and `.`. -/
inductive Re where
  | eps
  | chr (c : Char)
  | cls (neg : Bool) (items : List Cls)
  | dot
  | cat (p q : Re)
  | alt (p q : Re)
  | star (lzy : Bool) (p : Re)
  | opt (lzy : Bool) (p : Re)
  | group (i : Nat) (p : Re)
  | look (neg : Bool) (p : Re)
  | lookb (neg : Bool) (c : Char)
  | bol
  | wordB
deriving DecidableEq

/-- Per-lexer regex compilation flags (`re.IGNORECASE`, `re.DOTALL`,
`re.MULTILINE`). -/
structure Flags where
  ci : Bool
  dotall : Bool
  multiline : Bool
deriving DecidableEq

def isSpaceCh (c : Char) : Bool :=
  c = ' ' || c = '\t' || c = '\n' || c = '\x0d' || c = '\x0b' || c = '\x0c'

def isDigitCh (c : Char) : Bool :=
  '0' ≤ c && c ≤ '9'

def isWordCh (c : Char) : Bool :=
  ('a' ≤ c && c ≤ 'z') || ('A' ≤ c && c ≤ 'Z') || isDigitCh c || c = '_'

/-- Character comparison, case-folded when `IGNORECASE` is set. -/
def ceq (ci : Bool) (a b : Char) : Bool :=
  if ci then a.toLower = b.toLower else a = b

def clsItemTest (ci : Bool) (c : Char) : Cls → Bool
  | .chr d => ceq ci c d
  | .range lo hi =>
      (lo ≤ c && c ≤ hi) ||
        (ci && ((lo ≤ c.toLower && c.toLower ≤ hi) || (lo ≤ c.toUpper && c.toUpper ≤ hi)))
  | .space => isSpaceCh c
  | .nspace => !isSpaceCh c
  | .digit => isDigitCh c
  | .wordc => isWordCh c

def clsTest (ci : Bool) (neg : Bool) (items : List Cls) (c : Char) : Bool :=
  if neg then !(items.any (clsItemTest ci c)) else items.any (clsItemTest ci c)

/-- Capture-group assignments collected along one backtracking path:
`(index, start, stop)`, most recent first. -/
abbrev GroupsA := List (Nat × Nat × Nat)

/-- All ends a match attempt can reach, in Python backtracking priority
order (head = the match `re` would return). -/
abbrev MRes := List (Nat × GroupsA)

/-- Iterate a starred element.  An iteration must consume at least one
character (Python stops repeating a zero-width element as well); the fuel
is bounded by the remaining input length. -/
def starLoop (elem : Nat → GroupsA → MRes) (lzy : Bool) : Nat → Nat → GroupsA → MRes
  | 0, pos, g => [(pos, g)]
  | fuel+1, pos, g =>
    let rest :=
      (elem pos g).flatMap fun eg =>
        if pos < eg.1 then starLoop elem lzy fuel eg.1 eg.2 else []
    if lzy then (pos, g) :: rest else rest ++ [(pos, g)]

def wordAt (input : List Char) (pos : Nat) : Bool :=
  match input.get? pos with
  | some c => isWordCh c
  | none => false

/-- Modelled from the spec: backtracking evaluation of a pattern anchored
at `pos`, returning every reachable end position (with its captures) in
priority order. -/
def Re.matchEnds (fl : Flags) (input : List Char) : Re → Nat → GroupsA → MRes
  | .eps, pos, g => [(pos, g)]
  | .chr c, pos, g =>
    match input.get? pos with
    | some d => if ceq fl.ci d c then [(pos + 1, g)] else []
    | none => []
  | .cls neg items, pos, g =>
    match input.get? pos with
    | some d => if clsTest fl.ci neg items d then [(pos + 1, g)] else []
    | none => []
  | .dot, pos, g =>
    match input.get? pos with
    | some d => if fl.dotall || d ≠ '\n' then [(pos + 1, g)] else []
    | none => []
  | .cat p q, pos, g =>
    (Re.matchEnds fl input p pos g).flatMap fun eg => Re.matchEnds fl input q eg.1 eg.2
  | .alt p q, pos, g =>
    Re.matchEnds fl input p pos g ++ Re.matchEnds fl input q pos g
  | .star lzy p, pos, g =>
    starLoop (fun s h => Re.matchEnds fl input p s h) lzy (input.length + 1) pos g
  | .opt lzy p, pos, g =>
    if lzy then (pos, g) :: Re.matchEnds fl input p pos g
    else Re.matchEnds fl input p pos g ++ [(pos, g)]
  | .group i p, pos, g =>
    (Re.matchEnds fl input p pos g).map fun eg => (eg.1, (i, pos, eg.1) :: eg.2)
  | .look neg p, pos, g =>
    if (Re.matchEnds fl input p pos g).isEmpty then
      (if neg then [(pos, g)] else [])
    else
      (if neg then [] else [(pos, g)])
  | .lookb neg c, pos, g =>
    let prevOk : Bool :=
      if pos = 0 then false
      else
        match input.get? (pos - 1) with
        | some d => ceq fl.ci d c
        | none => false
    if neg then (if prevOk then [] else [(pos, g)])
    else (if prevOk then [(pos, g)] else [])
  | .bol, pos, g =>
    if pos = 0 ||
        (fl.multiline &&
          (match input.get? (pos - 1) with
           | some d => d = '\n'
           | none => false)) then
      [(pos, g)]
    else []
  | .wordB, pos, g =>
    let l := decide (pos ≠ 0) && wordAt input (pos - 1)
    let r := wordAt input pos
    if l ≠ r then [(pos, g)] else []

/-- One per-group emission directive of a `bygroups(...)` action: a fixed
token kind, or delegation of the group's text to this same lexer
(`using(this)`). -/
inductive GAct where
  | kind (k : Tok)
  | self
deriving DecidableEq

/-- Modelled from the spec: a rule's action — emit one token covering the
whole match, or one token (or delegated sub-scan) per capture group. -/
inductive Act where
  | simple (k : Tok)
  | grouped (gs : List GAct)
deriving DecidableEq

/-- Modelled from the spec: a rule's optional stack transition.  `push s`
is a state name given as third tuple element, `pushSelf` is `'#push'`,
`pop` is `'#pop'`. -/
inductive Transition where
  | stay
  | push (s : String)
  | pushSelf
  | pop
deriving DecidableEq

/-- One Pattern Rule: regex, action, transition. -/
structure Rule where
  pat : Re
  act : Act
  trans : Transition
deriving DecidableEq

/-- An entry of an unexpanded State Table: a Pattern Rule or an
`include('name')` reference. -/
inductive RawEntry where
  | rule (r : Rule)
  | incl (s : String)
deriving DecidableEq

abbrev RawTable := List (String × List RawEntry)

abbrev ExpTable := List (String × List Rule)

def lookupRaw (t : RawTable) (s : String) : Option (List RawEntry) :=
  (t.find? fun p => p.1 == s).map (·.2)

def lookupState (t : ExpTable) (s : String) : Option (List Rule) :=
  (t.find? fun p => p.1 == s).map (·.2)

/-- Errors of construction-time inclusion resolution. -/
inductive ExpErr where
  | cyclicInclusion (s : String)
  | missingState (s : String)
deriving DecidableEq

/-- Modelled from the spec: expand one raw entry, splicing an included
state's recursively expanded rules in place; `seen` is the chain of names
currently being resolved, a revisit is a `CyclicInclusion` error. -/
def expandEntry (t : RawTable) : Nat → List String → RawEntry → Except ExpErr (List Rule)
  | _, _, .rule r => .ok [r]
  | 0, _, .incl s => .error (.cyclicInclusion s)
  | fuel+1, seen, .incl s =>
    if seen.contains s then .error (.cyclicInclusion s)
    else
      match lookupRaw t s with
      | none => .error (.missingState s)
      | some es => (es.mapM (expandEntry t fuel (s :: seen))).map List.flatten

/-- Expand one named state of a raw table. -/
def expandState (t : RawTable) (s : String) : Except ExpErr (List Rule) :=
  match lookupRaw t s with
  | none => .error (.missingState s)
  | some es => (es.mapM (expandEntry t (t.length + 1) [s])).map List.flatten

/-- Modelled from the spec: construction-time resolution of every
`include()` of a raw table, producing the fully expanded table. -/
def expandAll (t : RawTable) : Except ExpErr ExpTable :=
  t.mapM fun p => (expandState t p.1).map fun rs => (p.1, rs)

/-- Modelled from the spec: apply a stack transition.  `pop` on a
single-element stack is a no-op (tolerant degrade). -/
def applyTrans (tr : Transition) (stk : List String) : List String :=
  match tr with
  | .stay => stk
  | .push s => s :: stk
  | .pushSelf =>
    match stk with
    | [] => []
    | s :: rest => s :: s :: rest
  | .pop =>
    match stk with
    | [] => []
    | [s] => [s]
    | _ :: rest => rest

/-- Scan-time errors: only the zero-progress loop guard. -/
inductive Err where
  | loopGuard
deriving DecidableEq

/-- An emitted token: half-open span `[start, stop)`, kind, source slice. -/
structure Token where
  start : Nat
  stop : Nat
  kind : Tok
  slice : List Char
deriving DecidableEq

/-- The slice `input[a:b]`. -/
def sliceOf (input : List Char) (a b : Nat) : List Char :=
  (input.drop a).take (b - a)

/-- Scan outcome: `none` is fuel exhaustion, otherwise the token stream or
a loop-guard error. -/
abbrev Res := Option (Except Err (List Token))

def consRes (t : Token) (r : Res) : Res :=
  r.map fun x => x.map fun ts => t :: ts

def appendRes (ts : List Token) (r : Res) : Res :=
  r.map fun x => x.map fun us => ts ++ us

def lookupGroup (g : GroupsA) (i : Nat) : Option (Nat × Nat) :=
  (g.find? fun x => x.1 == i).map fun x => (x.2.1, x.2.2)

/-- Modelled from the spec: first-match-wins rule selection.  Rules are
tried in declaration order; the first whose pattern matches is selected,
except that a zero-length match whose transition leaves the stack
unchanged is not permitted (it would stall) and is skipped. -/
def firstAccepted (fl : Flags) (input : List Char) (pos : Nat) (stk : List String) :
    List Rule → Option (Rule × Nat × GroupsA)
  | [] => none
  | r :: rest =>
    match (r.pat.matchEnds fl input pos []).head? with
    | some (e, g) =>
      if e == pos && applyTrans r.trans stk == stk then
        firstAccepted fl input pos stk rest
      else some (r, e, g)
    | none => firstAccepted fl input pos stk rest

/-- Modelled from the spec: `bygroups` emission.  For each configured
group in order: a kind emits one token over the group span, `using(this)`
runs a nested scan (`nest`) over the group's slice, its tokens translated
into the outer coordinate space; a group that did not participate is
skipped. -/
def emitGroups (nest : List Char → Res) (input : List Char) (g : GroupsA) :
    List GAct → Nat → Res
  | [], _ => some (.ok [])
  | .kind k :: rest, i =>
    match lookupGroup g i with
    | none => emitGroups nest input g rest (i + 1)
    | some (s, t) =>
      consRes ⟨s, t, k, sliceOf input s t⟩ (emitGroups nest input g rest (i + 1))
  | .self :: rest, i =>
    match lookupGroup g i with
    | none => emitGroups nest input g rest (i + 1)
    | some (s, t) =>
      match nest (sliceOf input s t) with
      | none => none
      | some (.error er) => some (.error er)
      | some (.ok ts) =>
        appendRes (ts.map fun tk => ⟨s + tk.start, s + tk.stop, tk.kind, tk.slice⟩)
          (emitGroups nest input g rest (i + 1))

/-- Emit the tokens of a matched rule's action over span `[pos, e)`. -/
def emitAction (nest : List Char → Res) (input : List Char) (pos e : Nat) (g : GroupsA) :
    Act → Res
  | .simple k => some (.ok [⟨pos, e, k, sliceOf input pos e⟩])
  | .grouped gs => emitGroups nest input g gs 1

/-- Modelled from the spec: the Scan Loop.  At each offset the active
state's rules are tried first-match-wins; on a match the action's tokens
are emitted, the transition applied and the offset advanced; with no
match, fallback recovery emits a one-character `error` token and advances
by one.  Zero-progress steps at the same offset are bounded by `guard`
(replenished to `bound` whenever the offset advances), exceeding it fails
with the loop guard.  Delegated sub-scans start from a fresh
`["root"]` stack over the group slice. -/
def scanAux (tbl : ExpTable) (fl : Flags) (bound : Nat) :
    Nat → List Char → Nat → List String → Nat → Res
  | 0, _, _, _, _ => none
  | fuel+1, input, pos, stk, guard =>
    if pos < input.length then
      match firstAccepted fl input pos stk ((lookupState tbl (stk.headD "root")).getD []) with
      | none =>
        consRes ⟨pos, pos + 1, .error, sliceOf input pos (pos + 1)⟩
          (scanAux tbl fl bound fuel input (pos + 1) stk bound)
      | some (r, e, g) =>
        match emitAction (fun s => scanAux tbl fl bound fuel s 0 ["root"] bound)
            input pos e g r.act with
        | none => none
        | some (.error er) => some (.error er)
        | some (.ok ts) =>
          if pos < e then
            appendRes ts (scanAux tbl fl bound fuel input e (applyTrans r.trans stk) bound)
          else if guard = 0 then some (.error .loopGuard)
          else
            appendRes ts
              (scanAux tbl fl bound fuel input pos (applyTrans r.trans stk) (guard - 1))
    else some (.ok [])

/-- Default loop-guard bound for a given input. -/
def guardBoundOf (input : List Char) : Nat := input.length + 1

/-- Fuel sufficient for any delegation-free scan of `input`. -/
def fuelOf (input : List Char) : Nat := (input.length + 1) * (input.length + 2) + 1

/-- Run a full scan from the initial stack `["root"]`. -/
def runScan (tbl : ExpTable) (fl : Flags) (input : List Char) : Res :=
  scanAux tbl fl (guardBoundOf input) (fuelOf input) input 0 ["root"] (guardBoundOf input)

def concatSlices (ts : List Token) : List Char :=
  (ts.map Token.slice).flatten

/-- `chainB a ts b`: the spans of `ts` are consecutive, starting at `a`
and ending at `b` — in order, non-overlapping, contiguous. -/
def chainB : Nat → List Token → Nat → Bool
  | a, [], b => a == b
  | a, t :: ts, b => t.start == a && decide (a ≤ t.stop) && chainB t.stop ts b

/-- `gpCheck g len gs i c e`: the configured groups of a `bygroups` action,
looked up from capture map `g` starting at group index `i`, have
consecutive in-bounds spans covering exactly `[c, e)` (absent groups
skipped) — the table-authoring partition contract of the spec. -/
def gpCheck (g : GroupsA) (len : Nat) : List GAct → Nat → Nat → Nat → Bool
  | [], _, c, e => c == e
  | _ :: rest, i, c, e =>
    match lookupGroup g i with
    | none => gpCheck g len rest (i + 1) c e
    | some (s, t) =>
      s == c && decide (s ≤ t) && decide (t ≤ len) && gpCheck g len rest (i + 1) t e

/-- The partition contract for one rule at one offset of one input: if the
rule matches, a grouped action's configured groups partition the match. -/
def ruleCoverOK (fl : Flags) (input : List Char) (r : Rule) (pos : Nat) : Bool :=
  match (r.pat.matchEnds fl input pos []).head? with
  | none => true
  | some (e, g) =>
    match r.act with
    | .simple _ => true
    | .grouped gs => gpCheck g input.length gs 1 pos e

/-- The partition contract for a whole expanded table over one input. -/
def coverOK (tbl : ExpTable) (fl : Flags) (input : List Char) : Bool :=
  tbl.all fun p =>
    p.2.all fun r => (List.range (input.length + 1)).all fun pos => ruleCoverOK fl input r pos

def actSimple : Act → Bool
  | .simple _ => true
  | .grouped _ => false

/-- All actions of the table emit a single token over the whole match. -/
def allSimpleStates (tbl : ExpTable) : Bool :=
  tbl.all fun p => p.2.all fun r => actSimple r.act

def gactNoSelf : GAct → Bool
  | .kind _ => true
  | .self => false

def actNoSelf : Act → Bool
  | .simple _ => true
  | .grouped gs => gs.all gactNoSelf

/-- No action of the table delegates to a nested scan. -/
def noDelegation (tbl : ExpTable) : Bool :=
  tbl.all fun p => p.2.all fun r => actNoSelf r.act

def gactNoError : GAct → Bool
  | .kind k => !(k == Tok.error)
  | .self => true

def actNoError : Act → Bool
  | .simple k => !(k == Tok.error)
  | .grouped gs => gs.all gactNoError

/-- No action of the table emits the reserved `error` kind itself. -/
def noErrorEmit (tbl : ExpTable) : Bool :=
  tbl.all fun p => p.2.all fun r => actNoError r.act

/-- Over `input`, no rule of any state of the table matches a nonzero
span anywhere (and any zero-length match captures only empty groups at
the match offset): every character of `input` is matched by no rule. -/
def zeroMatchOnly (tbl : ExpTable) (fl : Flags) (input : List Char) : Bool :=
  tbl.all fun p =>
    p.2.all fun r =>
      (List.range (input.length + 1)).all fun pos =>
        match (r.pat.matchEnds fl input pos []).head? with
        | none => true
        | some (e, g) => e == pos && g.all fun x => x.2.1 == pos && x.2.2 == pos

def rawKeys (t : RawTable) : List String := t.map (·.1)

def transClosed (keys : List String) : Transition → Bool
  | .push s => keys.contains s
  | _ => true

def entryClosed (keys : List String) : RawEntry → Bool
  | .rule r => transClosed keys r.trans
  | .incl s => keys.contains s

/-- Every push target and include target of the raw table names a state of
the table, and the table defines `'root'`. -/
def tableClosed (t : RawTable) : Bool :=
  (rawKeys t).contains "root" && t.all fun p => p.2.all (entryClosed (rawKeys t))

/-! ## Pattern-building helpers for transcribing the tables -/

/-- The literal string pattern `abc` as `cat` of characters. -/
def reStr (s : String) : Re :=
  (s.toList.map Re.chr).foldr Re.cat Re.eps

/-- `(a|b|c)` without the group: alternation in left-to-right priority. -/
def reAlts : List Re → Re
  | [] => Re.cls false []
  | [p] => p
  | p :: ps => Re.alt p (reAlts ps)

def reCat : List Re → Re
  | [] => Re.eps
  | [p] => p
  | p :: ps => Re.cat p (reCat ps)

/-- A keyword alternation `(w1|w2|...)` of literal strings. -/
def kwords (ws : List String) : Re := reAlts (ws.map reStr)

/-- `p+` (greedy) or `p+?` (lazy). -/
def rePlus (lzy : Bool) (p : Re) : Re := Re.cat p (Re.star lzy p)

/-- `p{0,n}` greedy, expanded to nested options (more repetitions tried
first, like Python). -/
def reRepMax : Nat → Re → Re
  | 0, _ => Re.eps
  | n+1, p => Re.opt false (Re.cat p (reRepMax n p))

/-- `p{lo,hi}` greedy. -/
def reRepRange (lo hi : Nat) (p : Re) : Re :=
  reCat (List.replicate lo p ++ [reRepMax (hi - lo) p])

/-- `\s` -/
def reSp : Re := Re.cls false [Cls.space]

/-- `\d` -/
def reDig : Re := Re.cls false [Cls.digit]

/-- `[a-zA-Z_][a-zA-Z0-9_]*` -/
def identRe : Re :=
  Re.cat (Re.cls false [Cls.range 'a' 'z', Cls.range 'A' 'Z', Cls.chr '_'])
    (Re.star false (Re.cls false [Cls.range 'a' 'z', Cls.range 'A' 'Z', Cls.range '0' '9', Cls.chr '_']))

/-- A rule with a simple action and no transition. -/
def rl (p : Re) (k : Tok) : RawEntry := .rule ⟨p, .simple k, .stay⟩

/-- A rule with a simple action pushing a named state. -/
def rlTo (p : Re) (k : Tok) (s : String) : RawEntry := .rule ⟨p, .simple k, .push s⟩

/-- A rule with a simple action and `'#pop'`. -/
def rlPop (p : Re) (k : Tok) : RawEntry := .rule ⟨p, .simple k, .pop⟩

/-- A rule with a simple action and `'#push'`. -/
def rlPush (p : Re) (k : Tok) : RawEntry := .rule ⟨p, .simple k, .pushSelf⟩

/-- A `bygroups` rule with no transition. -/
def rg (p : Re) (gs : List GAct) : RawEntry := .rule ⟨p, .grouped gs, .stay⟩

/-- A `bygroups` rule pushing a named state. -/
def rgTo (p : Re) (gs : List GAct) (s : String) : RawEntry := .rule ⟨p, .grouped gs, .push s⟩

deriving instance DecidableEq for Except

/-! ## CLexer (src/pygments/lexers/compiled.py lines 22-113)

No `flags` attribute in the source class; the engine's default
(`re.MULTILINE`) applies. -/

/-- Modelled from the spec: default per-lexer flags (multiline, no
ignore-case, no dot-matches-newline), used by `CLexer` and `CppLexer`
which declare no `flags` of their own. -/
def cFlags : Flags := ⟨false, false, true⟩

/-- `_ws = r'(?:\s|//.*?\n|/[*].*?[*]/)+'` (optional comment or whitespace). -/
def cWsRe : Re :=
  rePlus false (reAlts
    [reSp,
     reCat [reStr "//", Re.star true Re.dot, Re.chr '\n'],
     reCat [Re.chr '/', Re.cls false [Cls.chr '*'], Re.star true Re.dot,
            Re.cls false [Cls.chr '*'], Re.chr '/']])

/-- CLexer `'whitespace'` state. -/
def cWhitespace : List RawEntry :=
  [ -- (r'^\s*#if\s+0', Comment.Preproc, 'if0')
    rlTo (reCat [Re.bol, Re.star false reSp, reStr "#if", rePlus false reSp, Re.chr '0'])
      Tok.commentPreproc "if0",
    -- (r'^\s*#', Comment.Preproc, 'macro')
    rlTo (reCat [Re.bol, Re.star false reSp, Re.chr '#']) Tok.commentPreproc "macro",
    -- (r'\n', Text)
    rl (Re.chr '\n') Tok.text,
    -- (r'\s+', Text)
    rl (rePlus false reSp) Tok.text,
    -- (r'\\\n', Text)  line continuation
    rl (reStr "\\\n") Tok.text,
    -- (r'//(\n|(.|\n)*?[^\\]\n)', Comment)
    rl (reCat [reStr "//",
          Re.group 1 (Re.alt (Re.chr '\n')
            (reCat [Re.star true (Re.group 2 (Re.alt Re.dot (Re.chr '\n'))),
                    Re.cls true [Cls.chr '\\'], Re.chr '\n']))]) Tok.comment,
    -- (r'/(\\\n)?[*](.|\n)*?[*](\\\n)?/', Comment)
    rl (reCat [Re.chr '/', Re.opt false (Re.group 1 (reStr "\\\n")),
          Re.cls false [Cls.chr '*'],
          Re.star true (Re.group 2 (Re.alt Re.dot (Re.chr '\n'))),
          Re.cls false [Cls.chr '*'], Re.opt false (Re.group 3 (reStr "\\\n")),
          Re.chr '/']) Tok.comment ]

/-- CLexer `'statements'` state. -/
def cStatements : List RawEntry :=
  [ -- (r'L?"', String, 'string')
    rlTo (reCat [Re.opt false (Re.chr 'L'), Re.chr '"']) Tok.str "string",
    -- (r"L?'(\\.|\\[0-7]{1,3}|\\x[a-fA-F0-9]{1,2}|[^\\\'\n])'", String.Char)
    rl (reCat [Re.opt false (Re.chr 'L'), Re.chr '\'',
          Re.group 1 (reAlts
            [reCat [Re.chr '\\', Re.dot],
             reCat [Re.chr '\\', reRepRange 1 3 (Re.cls false [Cls.range '0' '7'])],
             reCat [reStr "\\x",
               reRepRange 1 2 (Re.cls false [Cls.range 'a' 'f', Cls.range 'A' 'F', Cls.range '0' '9'])],
             Re.cls true [Cls.chr '\\', Cls.chr '\'', Cls.chr '\n']]),
          Re.chr '\'']) Tok.strChar,
    -- (r'(0x[0-9a-fA-F]|0[0-7]+|(\d+\.\d*|\.\d+)|\d+)e[+-]\d+[lL]?', Number.Float)
    rl (reCat [Re.group 1 (reAlts
          [reCat [reStr "0x", Re.cls false [Cls.range '0' '9', Cls.range 'a' 'f', Cls.range 'A' 'F']],
           reCat [Re.chr '0', rePlus false (Re.cls false [Cls.range '0' '7'])],
           Re.group 2 (reAlts
             [reCat [rePlus false reDig, Re.chr '.', Re.star false reDig],
              reCat [Re.chr '.', rePlus false reDig]]),
           rePlus false reDig]),
          Re.chr 'e', Re.cls false [Cls.chr '+', Cls.chr '-'], rePlus false reDig,
          Re.opt false (Re.cls false [Cls.chr 'l', Cls.chr 'L'])]) Tok.numberFloat,
    -- (r'0x[0-9a-fA-F]+[Ll]?', Number.Hex)
    rl (reCat [reStr "0x",
          rePlus false (Re.cls false [Cls.range '0' '9', Cls.range 'a' 'f', Cls.range 'A' 'F']),
          Re.opt false (Re.cls false [Cls.chr 'L', Cls.chr 'l'])]) Tok.numberHex,
    -- (r'0[0-7]+[Ll]?', Number.Oct)
    rl (reCat [Re.chr '0', rePlus false (Re.cls false [Cls.range '0' '7']),
          Re.opt false (Re.cls false [Cls.chr 'L', Cls.chr 'l'])]) Tok.numberOct,
    -- (r'(\d+\.\d*|\.\d+)', Number.Float)
    rl (Re.group 1 (reAlts
          [reCat [rePlus false reDig, Re.chr '.', Re.star false reDig],
           reCat [Re.chr '.', rePlus false reDig]])) Tok.numberFloat,
    -- (r'\d+', Number.Integer)
    rl (rePlus false reDig) Tok.numberInteger,
    -- (r'[~!%^&*()+=|\[\]:,.<>/?-]', Text)
    rl (Re.cls false [Cls.chr '~', Cls.chr '!', Cls.chr '%', Cls.chr '^', Cls.chr '&',
          Cls.chr '*', Cls.chr '(', Cls.chr ')', Cls.chr '+', Cls.chr '=', Cls.chr '|',
          Cls.chr '[', Cls.chr ']', Cls.chr ':', Cls.chr ',', Cls.chr '.', Cls.chr '<',
          Cls.chr '>', Cls.chr '/', Cls.chr '?', Cls.chr '-']) Tok.text,
    -- (r'(auto|break|case|const|continue|default|do|else|enum|extern|for|goto|if|'
    --  r'register|restricted|return|sizeof|static|struct|switch|typedef|union|'
    --  r'volatile|virtual|while)\b', Keyword)
    rl (Re.cat (Re.group 1 (kwords
          ["auto", "break", "case", "const", "continue", "default", "do", "else",
           "enum", "extern", "for", "goto", "if", "register", "restricted", "return",
           "sizeof", "static", "struct", "switch", "typedef", "union", "volatile",
           "virtual", "while"])) Re.wordB) Tok.keyword,
    -- (r'(int|long|float|short|double|char|unsigned|signed|void|'
    --  r'_Complex|_Imaginary|_Bool)\b', Keyword.Type)
    rl (Re.cat (Re.group 1 (kwords
          ["int", "long", "float", "short", "double", "char", "unsigned", "signed",
           "void", "_Complex", "_Imaginary", "_Bool"])) Re.wordB) Tok.keywordType,
    -- (r'(_{0,2}inline|naked|restrict|thread|typename)\b', Keyword.Reserved)
    rl (Re.cat (Re.group 1 (reAlts
          [reCat [reRepRange 0 2 (Re.chr '_'), reStr "inline"],
           reStr "naked", reStr "restrict", reStr "thread", reStr "typename"]))
          Re.wordB) Tok.keywordReserved,
    -- (r'__(asm|int8|based|except|int16|stdcall|cdecl|fastcall|int32|'
    --  r'declspec|finally|int64|try|leave)\b', Keyword.Reserved)
    rl (reCat [reStr "__", Re.group 1 (kwords
          ["asm", "int8", "based", "except", "int16", "stdcall", "cdecl", "fastcall",
           "int32", "declspec", "finally", "int64", "try", "leave"]), Re.wordB])
      Tok.keywordReserved,
    -- (r'(true|false|NULL)\b', Keyword.Constant)
    rl (Re.cat (Re.group 1 (kwords ["true", "false", "NULL"])) Re.wordB)
      Tok.keywordConstant,
    -- ('[a-zA-Z_][a-zA-Z0-9_]*:', Name.Label)
    rl (Re.cat identRe (Re.chr ':')) Tok.nameLabel,
    -- ('[a-zA-Z_][a-zA-Z0-9_]*', Name)
    rl identRe Tok.name ]

/-- Group 1 of the CLexer function rules:
`((?:[a-zA-Z0-9_*\s])+?(?:\s|[*]))`  # return arguments -/
def cFuncG1b : Re :=
  Re.cat
    (rePlus true (Re.cls false [Cls.range 'a' 'z', Cls.range 'A' 'Z',
      Cls.range '0' '9', Cls.chr '_', Cls.chr '*', Cls.space]))
    (reAlts [reSp, Re.cls false [Cls.chr '*']])

/-- Group 1 wrapped as capture group 1. -/
def cFuncG1 : Re := Re.group 1 cFuncG1b

/-- Group 2 of the CLexer function rules: `([a-zA-Z_][a-zA-Z0-9_]*)`  # method name -/
def cFuncG2 : Re := Re.group 2 identRe

/-- Group 3 of the CLexer function rules: `(\s*\([^;]*?\))`  # signature -/
def cFuncG3b : Re :=
  reCat [Re.star false reSp, Re.chr '(',
    Re.star true (Re.cls true [Cls.chr ';']), Re.chr ')']

/-- Group 3 wrapped as capture group 3. -/
def cFuncG3 : Re := Re.group 3 cFuncG3b

/-- Group 4 of the CLexer function rules: `(` + _ws + `)` -/
def cFuncG4 : Re := Re.group 4 cWsRe

/-- The shared shape of CLexer's two function rules, ending in `({)`
(definition) or `(;)` (declaration). -/
def cFuncPat (c : Char) : Re :=
  reCat [cFuncG1, cFuncG2, cFuncG3, cFuncG4, Re.group 5 (Re.chr c)]

/-- CLexer function-definition rule:
(r'((?:[a-zA-Z0-9_*\s])+?(?:\s|[*]))'  # return arguments
 r'([a-zA-Z_][a-zA-Z0-9_]*)'           # method name
 r'(\s*\([^;]*?\))'                    # signature
 r'(' + _ws + r')({)',
 bygroups(using(this), Name.Function, using(this), Text, Keyword), 'function') -/
def cFuncDefRule : Rule :=
  ⟨cFuncPat '{',
   .grouped [.self, .kind Tok.nameFunction, .self, .kind Tok.text, .kind Tok.keyword],
   .push "function"⟩

/-- CLexer function-declaration rule: the same first four groups, then `(;)`
with bygroups(using(this), Name.Function, using(this), Text, Text). -/
def cFuncDeclRule : Rule :=
  ⟨cFuncPat ';',
   .grouped [.self, .kind Tok.nameFunction, .self, .kind Tok.text, .kind Tok.text],
   .stay⟩

/-- CLexer `'root'` state. -/
def cRoot : List RawEntry :=
  [ .incl "whitespace",
    -- functions
    .rule cFuncDefRule,
    -- function declarations
    .rule cFuncDeclRule,
    -- ('', Text, 'statement')
    rlTo Re.eps Tok.text "statement" ]

/-- CLexer `'statement'` state. -/
def cStatement : List RawEntry :=
  [ .incl "whitespace",
    .incl "statements",
    -- ('[{}]', Keyword)
    rl (Re.cls false [Cls.chr '{', Cls.chr '}']) Tok.keyword,
    -- (';', Text, '#pop')
    rlPop (Re.chr ';') Tok.text ]

/-- CLexer `'function'` state. -/
def cFunction : List RawEntry :=
  [ .incl "whitespace",
    .incl "statements",
    -- (';', Text)
    rl (Re.chr ';') Tok.text,
    -- ('{', Keyword, '#push')
    rlPush (Re.chr '{') Tok.keyword,
    -- ('}', Keyword, '#pop')
    rlPop (Re.chr '}') Tok.keyword ]

/-- CLexer `'string'` state (shared verbatim by `CppLexer`). -/
def cString : List RawEntry :=
  [ -- (r'"', String, '#pop')
    rlPop (Re.chr '"') Tok.str,
    -- (r'\\([\\abfnrtv"\']|x[a-fA-F0-9]{2,4}|[0-7]{1,3})', String.Escape)
    rl (Re.cat (Re.chr '\\') (Re.group 1 (reAlts
          [Re.cls false [Cls.chr '\\', Cls.chr 'a', Cls.chr 'b', Cls.chr 'f',
             Cls.chr 'n', Cls.chr 'r', Cls.chr 't', Cls.chr 'v', Cls.chr '"', Cls.chr '\''],
           Re.cat (Re.chr 'x')
             (reRepRange 2 4 (Re.cls false [Cls.range 'a' 'f', Cls.range 'A' 'F', Cls.range '0' '9'])),
           reRepRange 1 3 (Re.cls false [Cls.range '0' '7'])]))) Tok.strEscape,
    -- (r'[^\\"\n]+', String)  all other characters
    rl (rePlus false (Re.cls true [Cls.chr '\\', Cls.chr '"', Cls.chr '\n'])) Tok.str,
    -- (r'\\\n', String)  line continuation
    rl (reStr "\\\n") Tok.str,
    -- (r'\\', String)  stray backslash
    rl (Re.chr '\\') Tok.str ]

/-- CLexer `'macro'` state (shared verbatim by `CppLexer`). -/
def cMacro : List RawEntry :=
  [ -- (r'[^/\n]+', Comment.Preproc)
    rl (rePlus false (Re.cls true [Cls.chr '/', Cls.chr '\n'])) Tok.commentPreproc,
    -- (r'/[*](.|\n)*?[*]/', Comment)
    rl (reCat [Re.chr '/', Re.cls false [Cls.chr '*'],
          Re.star true (Re.group 1 (Re.alt Re.dot (Re.chr '\n'))),
          Re.cls false [Cls.chr '*'], Re.chr '/']) Tok.comment,
    -- (r'//.*?\n', Comment, '#pop')
    rlPop (reCat [reStr "//", Re.star true Re.dot, Re.chr '\n']) Tok.comment,
    -- (r'/', Comment.Preproc)
    rl (Re.chr '/') Tok.commentPreproc,
    -- (r'(?<=\\)\n', Comment.Preproc)
    rl (Re.cat (Re.lookb false '\\') (Re.chr '\n')) Tok.commentPreproc,
    -- (r'\n', Comment.Preproc, '#pop')
    rlPop (Re.chr '\n') Tok.commentPreproc ]

/-- CLexer `'if0'` state (shared verbatim by `CppLexer`). -/
def cIf0 : List RawEntry :=
  [ -- (r'^\s*#if.*?(?<!\\)\n', Comment, '#push')
    rlPush (reCat [Re.bol, Re.star false reSp, reStr "#if", Re.star true Re.dot,
          Re.lookb true '\\', Re.chr '\n']) Tok.comment,
    -- (r'^\s*#endif.*?(?<!\\)\n', Comment, '#pop')
    rlPop (reCat [Re.bol, Re.star false reSp, reStr "#endif", Re.star true Re.dot,
          Re.lookb true '\\', Re.chr '\n']) Tok.comment,
    -- (r'.*?\n', Comment)
    rl (reCat [Re.star true Re.dot, Re.chr '\n']) Tok.comment ]

/-- The `CLexer.tokens` raw table. -/
def cRaw : RawTable :=
  [("whitespace", cWhitespace),
   ("statements", cStatements),
   ("root", cRoot),
   ("statement", cStatement),
   ("function", cFunction),
   ("string", cString),
   ("macro", cMacro),
   ("if0", cIf0)]

def cTables : Except ExpErr ExpTable := expandAll cRaw

def cStates : ExpTable := cTables.toOption.getD []

/-! ## CppLexer (src/pygments/lexers/compiled.py lines 116-184)

Its `'string'`, `'macro'` and `'if0'` states repeat the CLexer ones
verbatim in the source, so the same transcriptions are reused. -/

/-- CppLexer `'root'` state. -/
def cppRoot : List RawEntry :=
  [ -- (r'^\s*#if\s+0', Comment.Preproc, 'if0')
    rlTo (reCat [Re.bol, Re.star false reSp, reStr "#if", rePlus false reSp, Re.chr '0'])
      Tok.commentPreproc "if0",
    -- (r'^\s*#', Comment.Preproc, 'macro')
    rlTo (reCat [Re.bol, Re.star false reSp, Re.chr '#']) Tok.commentPreproc "macro",
    -- (r'\n', Text)
    rl (Re.chr '\n') Tok.text,
    -- (r'\s+', Text)
    rl (rePlus false reSp) Tok.text,
    -- (r'\\\n', Text)  line continuation
    rl (reStr "\\\n") Tok.text,
    -- (r'//(\n|(.|\n)*?[^\\]\n)', Comment)
    rl (reCat [reStr "//",
          Re.group 1 (Re.alt (Re.chr '\n')
            (reCat [Re.star true (Re.group 2 (Re.alt Re.dot (Re.chr '\n'))),
                    Re.cls true [Cls.chr '\\'], Re.chr '\n']))]) Tok.comment,
    -- (r'/(\\\n)?[*](.|\n)*?[*](\\\n)?/', Comment)
    rl (reCat [Re.chr '/', Re.opt false (Re.group 1 (reStr "\\\n")),
          Re.cls false [Cls.chr '*'],
          Re.star true (Re.group 2 (Re.alt Re.dot (Re.chr '\n'))),
          Re.cls false [Cls.chr '*'], Re.opt false (Re.group 3 (reStr "\\\n")),
          Re.chr '/']) Tok.comment,
    -- (r'[{}]', Keyword)
    rl (Re.cls false [Cls.chr '{', Cls.chr '}']) Tok.keyword,
    -- (r'L?"', String, 'string')
    rlTo (reCat [Re.opt false (Re.chr 'L'), Re.chr '"']) Tok.str "string",
    -- (r"L?'(\\.|\\[0-7]{1,3}|\\x[a-fA-F0-9]{1,2}|[^\\\'\n])'", String.Char)
    rl (reCat [Re.opt false (Re.chr 'L'), Re.chr '\'',
          Re.group 1 (reAlts
            [reCat [Re.chr '\\', Re.dot],
             reCat [Re.chr '\\', reRepRange 1 3 (Re.cls false [Cls.range '0' '7'])],
             reCat [reStr "\\x",
               reRepRange 1 2 (Re.cls false [Cls.range 'a' 'f', Cls.range 'A' 'F', Cls.range '0' '9'])],
             Re.cls true [Cls.chr '\\', Cls.chr '\'', Cls.chr '\n']]),
          Re.chr '\'']) Tok.strChar,
    -- (r'(0x[0-9a-fA-F]|0[0-7]+|(\d+\.\d*|\.\d+)|\d+)e[+-]\d+[lL]?', Number.Float)
    rl (reCat [Re.group 1 (reAlts
          [reCat [reStr "0x", Re.cls false [Cls.range '0' '9', Cls.range 'a' 'f', Cls.range 'A' 'F']],
           reCat [Re.chr '0', rePlus false (Re.cls false [Cls.range '0' '7'])],
           Re.group 2 (reAlts
             [reCat [rePlus false reDig, Re.chr '.', Re.star false reDig],
              reCat [Re.chr '.', rePlus false reDig]]),
           rePlus false reDig]),
          Re.chr 'e', Re.cls false [Cls.chr '+', Cls.chr '-'], rePlus false reDig,
          Re.opt false (Re.cls false [Cls.chr 'l', Cls.chr 'L'])]) Tok.numberFloat,
    -- (r'0x[0-9a-fA-F]+[Ll]?', Number.Hex)
    rl (reCat [reStr "0x",
          rePlus false (Re.cls false [Cls.range '0' '9', Cls.range 'a' 'f', Cls.range 'A' 'F']),
          Re.opt false (Re.cls false [Cls.chr 'L', Cls.chr 'l'])]) Tok.numberHex,
    -- (r'0[0-7]+[Ll]?', Number.Oct)
    rl (reCat [Re.chr '0', rePlus false (Re.cls false [Cls.range '0' '7']),
          Re.opt false (Re.cls false [Cls.chr 'L', Cls.chr 'l'])]) Tok.numberOct,
    -- (r'(\d+\.\d*|\.\d+)', Number.Float)
    rl (Re.group 1 (reAlts
          [reCat [rePlus false reDig, Re.chr '.', Re.star false reDig],
           reCat [Re.chr '.', rePlus false reDig]])) Tok.numberFloat,
    -- (r'\d+', Number.Integer)
    rl (rePlus false reDig) Tok.numberInteger,
    -- (r'[~!%^&*()+=|\[\]:;,.<>/?-]', Text)
    rl (Re.cls false [Cls.chr '~', Cls.chr '!', Cls.chr '%', Cls.chr '^', Cls.chr '&',
          Cls.chr '*', Cls.chr '(', Cls.chr ')', Cls.chr '+', Cls.chr '=', Cls.chr '|',
          Cls.chr '[', Cls.chr ']', Cls.chr ':', Cls.chr ';', Cls.chr ',', Cls.chr '.',
          Cls.chr '<', Cls.chr '>', Cls.chr '/', Cls.chr '?', Cls.chr '-']) Tok.text,
    -- (r'(asm|auto|break|case|catch|const|const_cast|continue|default|delete|do|'
    --  r'dynamic_cast|else|enum|explicit|export|extern|for|friend|goto|if|mutable|'
    --  r'namespace|new|operator|private|protected|public|register|reinterpret_cast|'
    --  r'return|sizeof|static|static_cast|struct|switch|template|this|throw|throws|'
    --  r'try|typedef|typeid|typename|union|using|volatile|virtual|while)\b', Keyword)
    rl (Re.cat (Re.group 1 (kwords
          ["asm", "auto", "break", "case", "catch", "const", "const_cast", "continue",
           "default", "delete", "do", "dynamic_cast", "else", "enum", "explicit",
           "export", "extern", "for", "friend", "goto", "if", "mutable", "namespace",
           "new", "operator", "private", "protected", "public", "register",
           "reinterpret_cast", "return", "sizeof", "static", "static_cast", "struct",
           "switch", "template", "this", "throw", "throws", "try", "typedef",
           "typeid", "typename", "union", "using", "volatile", "virtual", "while"]))
          Re.wordB) Tok.keyword,
    -- (r'(class)(\s+)', bygroups(Keyword, Text), 'classname')
    rgTo (Re.cat (Re.group 1 (reStr "class")) (Re.group 2 (rePlus false reSp)))
      [.kind Tok.keyword, .kind Tok.text] "classname",
    -- (r'(bool|int|long|float|short|double|char|unsigned|signed|void|wchar_t)\b',
    --  Keyword.Type)
    rl (Re.cat (Re.group 1 (kwords
          ["bool", "int", "long", "float", "short", "double", "char", "unsigned",
           "signed", "void", "wchar_t"])) Re.wordB) Tok.keywordType,
    -- (r'(_{0,2}inline|naked|thread)\b', Keyword.Reserved)
    rl (Re.cat (Re.group 1 (reAlts
          [reCat [reRepRange 0 2 (Re.chr '_'), reStr "inline"],
           reStr "naked", reStr "thread"])) Re.wordB) Tok.keywordReserved,
    -- (r'__(asm|int8|based|except|int16|stdcall|cdecl|fastcall|int32|declspec|'
    --  r'finally|int64|try|leave|wchar_t|w64|virtual_inheritance|uuidof|unaligned|'
    --  r'super|single_inheritance|raise|noop|multiple_inheritance|m128i|m128d|m128|'
    --  r'm64|interface|identifier|forceinline|event|assume)\b', Keyword.Reserved)
    rl (reCat [reStr "__", Re.group 1 (kwords
          ["asm", "int8", "based", "except", "int16", "stdcall", "cdecl", "fastcall",
           "int32", "declspec", "finally", "int64", "try", "leave", "wchar_t", "w64",
           "virtual_inheritance", "uuidof", "unaligned", "super",
           "single_inheritance", "raise", "noop", "multiple_inheritance", "m128i",
           "m128d", "m128", "m64", "interface", "identifier", "forceinline", "event",
           "assume"]), Re.wordB]) Tok.keywordReserved,
    -- (r'(true|false|NULL)\b', Keyword.Constant)
    rl (Re.cat (Re.group 1 (kwords ["true", "false", "NULL"])) Re.wordB)
      Tok.keywordConstant,
    -- ('[a-zA-Z_][a-zA-Z0-9_]*:', Name.Label)
    rl (Re.cat identRe (Re.chr ':')) Tok.nameLabel,
    -- ('[a-zA-Z_][a-zA-Z0-9_]*', Name)
    rl identRe Tok.name ]

/-- CppLexer `'classname'` state. -/
def cppClassname : List RawEntry :=
  [ -- (r'[a-zA-Z_][a-zA-Z0-9_]*', Name.Class, '#pop')
    rlPop identRe Tok.nameClass ]

/-- The `CppLexer.tokens` raw table. -/
def cppRaw : RawTable :=
  [("root", cppRoot),
   ("classname", cppClassname),
   ("string", cString),
   ("macro", cMacro),
   ("if0", cIf0)]

def cppTables : Except ExpErr ExpTable := expandAll cppRaw

def cppStates : ExpTable := cppTables.toOption.getD []

/-! ## DelphiLexer (src/pygments/lexers/compiled.py lines 187-291)

`flags = re.IGNORECASE | re.MULTILINE | re.DOTALL`. -/

def delphiFlags : Flags := ⟨true, true, true⟩

/-- `[a-zA-Z_][a-zA-Z0-9_.]*` (dotted identifier, used by `'uses'` and
`'funcname'`). -/
def dottedIdentRe : Re :=
  Re.cat (Re.cls false [Cls.range 'a' 'z', Cls.range 'A' 'Z', Cls.chr '_'])
    (Re.star false (Re.cls false [Cls.range 'a' 'z', Cls.range 'A' 'Z',
      Cls.range '0' '9', Cls.chr '_', Cls.chr '.']))

/-- DelphiLexer `'root'` state. -/
def delphiRoot : List RawEntry :=
  [ -- (r'\s+', Text)
    rl (rePlus false reSp) Tok.text,
    -- (r'asm\b', Keyword, 'asm')
    rlTo (Re.cat (reStr "asm") Re.wordB) Tok.keyword "asm",
    -- (r'(uses)(\s+)', bygroups(Keyword, Text), 'uses')
    rgTo (Re.cat (Re.group 1 (reStr "uses")) (Re.group 2 (rePlus false reSp)))
      [.kind Tok.keyword, .kind Tok.text] "uses",
    -- (r'(procedure|function)(\s+)', bygroups(Keyword, Text), 'funcname')
    rgTo (Re.cat (Re.group 1 (kwords ["procedure", "function"]))
        (Re.group 2 (rePlus false reSp)))
      [.kind Tok.keyword, .kind Tok.text] "funcname",
    -- (r'(abstract|and|array|...|break|assert)\b', Keyword)
    rl (Re.cat (Re.group 1 (kwords
          ["abstract", "and", "array", "as", "assembler", "at", "begin", "case",
           "cdecl", "class", "const", "constructor", "contains", "destructor",
           "dispinterface", "div", "do", "downto", "else", "end", "except", "far",
           "file", "finalization", "finally", "for", "goto", "if", "implementation",
           "in", "inherited", "out", "initialization", "inline", "interface", "is",
           "label", "mod", "near", "nil", "not", "object", "of", "on", "or",
           "overload", "override", "package", "packed", "pascal", "private",
           "program", "protected", "public", "published", "raise", "record",
           "register", "repeat", "requires", "resourcestring", "safecall", "self",
           "set", "shl", "shr", "stdcall", "then", "threadvar", "to", "try", "type",
           "unit", "until", "uses", "var", "varargs", "virtual", "while", "with",
           "xor", "break", "assert"])) Re.wordB) Tok.keyword,
    -- (r'(AnsiString|Boolean|...|WordBool|Boolean)\b', Keyword.Type)
    rl (Re.cat (Re.group 1 (kwords
          ["AnsiString", "Boolean", "Byte", "ByteBool", "Cardinal", "Char", "Comp",
           "Currency", "Double", "Extended", "Int64", "Integer", "LongBool",
           "LongInt", "Real", "Real48", "ShortInt", "ShortString", "Single",
           "SmallInt", "String", "WideChar", "WideString", "Word", "WordBool",
           "Boolean"])) Re.wordB) Tok.keywordType,
    -- (r'property\b', Keyword, 'property')
    rlTo (Re.cat (reStr "property") Re.wordB) Tok.keyword "property",
    -- (r'(true|false|inc|dec)\b', Name.Builtin)
    rl (Re.cat (Re.group 1 (kwords ["true", "false", "inc", "dec"])) Re.wordB)
      Tok.nameBuiltin,
    -- (r'(result)\b', Keyword.Pseudo)
    rl (Re.cat (Re.group 1 (reStr "result")) Re.wordB) Tok.keywordPseudo,
    .incl "comments",
    -- (r"'(''|[^']*)'", String)
    rl (reCat [Re.chr '\'',
          Re.group 1 (Re.alt (reStr "''") (Re.star false (Re.cls true [Cls.chr '\'']))),
          Re.chr '\'']) Tok.str,
    -- (r'\$[0-9a-fA-F]+', Number)
    rl (Re.cat (Re.chr '$')
          (rePlus false (Re.cls false [Cls.range '0' '9', Cls.range 'a' 'f', Cls.range 'A' 'F'])))
      Tok.number,
    -- (r'\#\$?[0-9]{1,3}', Number)
    rl (reCat [Re.chr '#', Re.opt false (Re.chr '$'),
          reRepRange 1 3 (Re.cls false [Cls.range '0' '9'])]) Tok.number,
    -- (r'[0-9]', Number)
    rl (Re.cls false [Cls.range '0' '9']) Tok.number,
    -- (r'[@~!%^&*()+=|\[\]:;,.<>/?-]', Text)
    rl (Re.cls false [Cls.chr '@', Cls.chr '~', Cls.chr '!', Cls.chr '%', Cls.chr '^',
          Cls.chr '&', Cls.chr '*', Cls.chr '(', Cls.chr ')', Cls.chr '+', Cls.chr '=',
          Cls.chr '|', Cls.chr '[', Cls.chr ']', Cls.chr ':', Cls.chr ';', Cls.chr ',',
          Cls.chr '.', Cls.chr '<', Cls.chr '>', Cls.chr '/', Cls.chr '?', Cls.chr '-'])
      Tok.text,
    -- (r'^(\s*)([a-zA-Z_][a-zA-Z0-9_]*)(:)', bygroups(Text, Name.Label, Text))
    rg (reCat [Re.bol, Re.group 1 (Re.star false reSp), Re.group 2 identRe,
          Re.group 3 (Re.chr ':')])
      [.kind Tok.text, .kind Tok.nameLabel, .kind Tok.text],
    -- (r'[a-zA-Z_][a-zA-Z0-9_]*', Name)
    rl identRe Tok.name ]

/-- DelphiLexer `'comments'` state. -/
def delphiComments : List RawEntry :=
  [ -- (r'\{.*?\}', Comment)
    rl (reCat [Re.chr '{', Re.star true Re.dot, Re.chr '}']) Tok.comment,
    -- (r'\(\*.*?\*\)', Comment)
    rl (reCat [reStr "(*", Re.star true Re.dot, reStr "*)"]) Tok.comment,
    -- (r'//.*?\n', Comment)
    rl (reCat [reStr "//", Re.star true Re.dot, Re.chr '\n']) Tok.comment ]

/-- DelphiLexer `'uses'` state. -/
def delphiUses : List RawEntry :=
  [ -- (r'(in)(\s+)(\'.*?\')', bygroups(Keyword, Text, String))
    rg (reCat [Re.group 1 (reStr "in"), Re.group 2 (rePlus false reSp),
          Re.group 3 (reCat [Re.chr '\'', Re.star true Re.dot, Re.chr '\''])])
      [.kind Tok.keyword, .kind Tok.text, .kind Tok.str],
    -- (r'[a-zA-Z_][a-zA-Z0-9_.]*', Name.Namespace)
    rl dottedIdentRe Tok.nameNamespace,
    -- (r'[\s,]', Text)
    rl (Re.cls false [Cls.space, Cls.chr ',']) Tok.text,
    .incl "comments",
    -- (r';', Text, '#pop')
    rlPop (Re.chr ';') Tok.text ]

/-- DelphiLexer `'property'` state. -/
def delphiProperty : List RawEntry :=
  [ -- (r';', Text, '#pop')
    rlPop (Re.chr ';') Tok.text,
    -- (r'(read|write)\b', Keyword)
    rl (Re.cat (Re.group 1 (kwords ["read", "write"])) Re.wordB) Tok.keyword,
    .incl "root" ]

/-- DelphiLexer `'funcname'` state. -/
def delphiFuncname : List RawEntry :=
  [ -- (r'[a-zA-Z_][a-zA-Z0-9_.]*', Name.Function, '#pop')
    rlPop dottedIdentRe Tok.nameFunction ]

/-- DelphiLexer `'asm'` state. -/
def delphiAsm : List RawEntry :=
  [ -- (r'end', Keyword, '#pop')
    rlPop (reStr "end") Tok.keyword,
    -- (r'\s+', Text)
    rl (rePlus false reSp) Tok.text,
    .incl "comments",
    -- (r'(AAA|AAD|...|sets|setz)\b', Keyword)
    rl (Re.cat (Re.group 1 (kwords
          ["AAA", "AAD", "AAM", "AAS", "ADC", "ADD", "AND", "ARPL", "BOUND", "BSF",
           "BSR", "BSWAP", "BT", "BTC", "BTR", "BTS", "CALL", "CBW", "CDQ", "CLC",
           "CLD", "CLI", "CLTS", "CMC", "CMP", "CMPSB", "CMPSD", "CMPSW", "CMPXCHG",
           "CMPXCHG486", "CMPXCHG8B", "CPUID", "CWD", "CWDE", "DAA", "DAS", "DEC",
           "DIV", "EMMS", "ENTER", "HLT", "IBTS", "ICEBP", "IDIV", "IMUL", "IN",
           "INC", "INSB", "INSD", "INSW", "INT", "INT01", "INT03", "INT1", "INT3",
           "INTO", "INVD", "INVLPG", "IRET", "IRETD", "IRETW", "JCXZ", "JECXZ",
           "JMP", "LAHF", "LAR", "LCALL", "LDS", "LEA", "LEAVE", "LES", "LFS",
           "LGDT", "LGS", "LIDT", "LJMP", "LLDT", "LMSW", "LOADALL", "LOADALL286",
           "LOCK", "LODSB", "LODSD", "LODSW", "LOOP", "LOOPE", "LOOPNE", "LOOPNZ",
           "LOOPZ", "LSL", "LSS", "LTR", "MOV", "MOVD", "MOVQ", "MOVSB", "MOVSD",
           "MOVSW", "MOVSX", "MOVZX", "MUL", "NEG", "NOP", "NOT", "OR", "OUT",
           "OUTSB", "OUTSD", "OUTSW", "POP", "POPA", "POPAD", "POPAW", "POPF",
           "POPFD", "POPFW", "PUSH", "PUSHA", "PUSHAD", "PUSHAW", "PUSHF", "PUSHFD",
           "PUSHFW", "RCL", "RCR", "RDMSR", "RDPMC", "RDSHR", "RDTSC", "REP", "REPE",
           "REPNE", "REPNZ", "REPZ", "RET", "RETF", "RETN", "ROL", "ROR", "RSDC",
           "RSLDT", "RSM", "SAHF", "SAL", "SALC", "SAR", "SBB", "SCASB", "SCASD",
           "SCASW", "SGDT", "SHL", "SHLD", "SHR", "SHRD", "SIDT", "SLDT", "SMI",
           "SMINT", "SMINTOLD", "SMSW", "STC", "STD", "STI", "STOSB", "STOSD",
           "STOSW", "STR", "SUB", "SVDC", "SVLDT", "SVTS", "SYSCALL", "SYSENTER",
           "SYSEXIT", "SYSRET", "TEST", "UD1", "UD2", "UMOV", "VERR", "VERW", "WAIT",
           "WBINVD", "WRMSR", "WRSHR", "XADD", "XBTS", "XCHG", "XLAT", "XLATB",
           "XOR", "cmova", "cmovae", "cmovb", "cmovbe", "cmovc", "cmovcxz", "cmove",
           "cmovg", "cmovge", "cmovl", "cmovle", "cmovna", "cmovnae", "cmovnb",
           "cmovnbe", "cmovnc", "cmovne", "cmovng", "cmovnge", "cmovnl", "cmovnle",
           "cmovno", "cmovnp", "cmovns", "cmovnz", "cmovo", "cmovp", "cmovpe",
           "cmovpo", "cmovs", "cmovz", "ja", "jae", "jb", "jbe", "jc", "jcxz", "je",
           "jg", "jge", "jl", "jle", "jna", "jnae", "jnb", "jnbe", "jnc", "jne",
           "jng", "jnge", "jnl", "jnle", "jno", "jnp", "jns", "jnz", "jo", "jp",
           "jpe", "jpo", "js", "jz", "seta", "setae", "setb", "setbe", "setc",
           "setcxz", "sete", "setg", "setge", "setl", "setle", "setna", "setnae",
           "setnb", "setnbe", "setnc", "setne", "setng", "setnge", "setnl",
           "setnle", "setno", "setnp", "setns", "setnz", "seto", "setp", "setpe",
           "setpo", "sets", "setz"])) Re.wordB) Tok.keyword,
    -- (r'(byte|dmtindex|dword|large|offset|ptr|qword|small|tbyte|type|vmtoffset|'
    --  r'word)\b', Keyword.Pseudo)
    rl (Re.cat (Re.group 1 (kwords
          ["byte", "dmtindex", "dword", "large", "offset", "ptr", "qword", "small",
           "tbyte", "type", "vmtoffset", "word"])) Re.wordB) Tok.keywordPseudo,
    -- (r'(ah|al|...|xmm7)\b', Name.Builtin)
    rl (Re.cat (Re.group 1 (kwords
          ["ah", "al", "ax", "bh", "bl", "bp", "bx", "ch", "cl", "cr0", "cr1",
           "cr2", "cr3", "cr4", "cs", "cx", "dh", "di", "dl", "dr0", "dr1", "dr2",
           "dr3", "dr4", "dr5", "dr6", "dr7", "ds", "dx", "eax", "ebp", "ebx",
           "ecx", "edi", "edx", "es", "esi", "esp", "fs", "gs", "mm0", "mm1", "mm2",
           "mm3", "mm4", "mm5", "mm6", "mm7", "si", "sp", "ss", "st0", "st1", "st2",
           "st3", "st4", "st5", "st6", "st7", "xmm0", "xmm1", "xmm2", "xmm3",
           "xmm4", "xmm5", "xmm6", "xmm7"])) Re.wordB) Tok.nameBuiltin,
    -- ('[a-zA-Z_][a-zA-Z0-9_]*', Name)
    rl identRe Tok.name,
    -- (r'(@@[a-zA-Z0-9_]+)(:)?', bygroups(Name.Label, Text))
    rg (Re.cat
          (Re.group 1 (Re.cat (reStr "@@")
            (rePlus false (Re.cls false [Cls.range 'a' 'z', Cls.range 'A' 'Z',
              Cls.range '0' '9', Cls.chr '_']))))
          (Re.opt false (Re.group 2 (Re.chr ':'))))
      [.kind Tok.nameLabel, .kind Tok.text],
    -- (r'\$[0-9a-zA-Z]+', Number)
    rl (Re.cat (Re.chr '$')
          (rePlus false (Re.cls false [Cls.range '0' '9', Cls.range 'a' 'z', Cls.range 'A' 'Z'])))
      Tok.number,
    -- (r"'(''|[^']+)'", String)
    rl (reCat [Re.chr '\'',
          Re.group 1 (Re.alt (reStr "''") (rePlus false (Re.cls true [Cls.chr '\'']))),
          Re.chr '\'']) Tok.str,
    -- (r'[\[\]&()*+,./;-]', Text)
    rl (Re.cls false [Cls.chr '[', Cls.chr ']', Cls.chr '&', Cls.chr '(', Cls.chr ')',
          Cls.chr '*', Cls.chr '+', Cls.chr ',', Cls.chr '.', Cls.chr '/', Cls.chr ';',
          Cls.chr '-']) Tok.text ]

/-- The `DelphiLexer.tokens` raw table. -/
def delphiRaw : RawTable :=
  [("root", delphiRoot),
   ("comments", delphiComments),
   ("uses", delphiUses),
   ("property", delphiProperty),
   ("funcname", delphiFuncname),
   ("asm", delphiAsm)]

def delphiTables : Except ExpErr ExpTable := expandAll delphiRaw

def delphiStates : ExpTable := delphiTables.toOption.getD []

/-! ## JavaLexer (src/pygments/lexers/compiled.py lines 294-341)

`flags = re.MULTILINE | re.DOTALL`; its `_ws` repeats the CLexer `_ws`
pattern text verbatim, so `cWsRe` is reused (the `.` semantics differ only
through the per-lexer flags, applied at evaluation time). -/

def javaFlags : Flags := ⟨false, true, true⟩

/-- `[a-zA-Z_][a-zA-Z0-9_\.]*` (Java dotted name, `\.` inside the class). -/
def javaDottedRe : Re :=
  Re.cat (Re.cls false [Cls.range 'a' 'z', Cls.range 'A' 'Z', Cls.chr '_'])
    (Re.star false (Re.cls false [Cls.range 'a' 'z', Cls.range 'A' 'Z',
      Cls.range '0' '9', Cls.chr '_', Cls.chr '.']))

/-- Group 1 of the JavaLexer method rule:
`(\s*(?:[a-zA-Z_][a-zA-Z0-9_\.]*\s+)+?)`  # return arguments -/
def javaMethodG1b : Re :=
  Re.cat (Re.star false reSp)
    (rePlus true (Re.cat javaDottedRe (rePlus false reSp)))

/-- Group 1 wrapped as capture group 1. -/
def javaMethodG1 : Re := Re.group 1 javaMethodG1b

/-- Group 2 of the JavaLexer method rule: `([a-zA-Z_][a-zA-Z0-9_]*)`  # method name -/
def javaMethodG2 : Re := Re.group 2 identRe

/-- Group 3 of the JavaLexer method rule: `(\s*\([^;]*?\))`  # signature -/
def javaMethodG3b : Re :=
  reCat [Re.star false reSp, Re.chr '(',
    Re.star true (Re.cls true [Cls.chr ';']), Re.chr ')']

/-- Group 3 wrapped as capture group 3. -/
def javaMethodG3 : Re := Re.group 3 javaMethodG3b

/-- The zero-width exception-declaration lookahead of the method rule:
`(?=` + _ws + `(?:throws\s+(?:[a-zA-Z_][a-zA-Z0-9_]*,?\s*)+)?` + _ws + `\{)` -/
def javaMethodLook : Re :=
  reCat
    [cWsRe,
     Re.opt false (reCat [reStr "throws", rePlus false reSp,
       rePlus false (reCat [identRe, Re.opt false (Re.chr ','),
         Re.star false reSp])]),
     cWsRe, Re.chr '{']

/-- JavaLexer method-name rule:
(r'^(\s*(?:[a-zA-Z_][a-zA-Z0-9_\.]*\s+)+?)'  # return arguments
 r'([a-zA-Z_][a-zA-Z0-9_]*)'                 # method name
 r'(\s*\([^;]*?\))'                          # signature
 r'(?=' + _ws + r'(?:throws\s+(?:[a-zA-Z_][a-zA-Z0-9_]*,?\s*)+)?' + _ws + r'\{)',
 bygroups(using(this), Name.Function, using(this))) -/
def javaMethodRule : Rule :=
  ⟨reCat [Re.bol, javaMethodG1, javaMethodG2, javaMethodG3,
      Re.look false javaMethodLook],
   .grouped [.self, .kind Tok.nameFunction, .self],
   .stay⟩

/-- JavaLexer `'root'` state. -/
def javaRoot : List RawEntry :=
  [ -- method names
    .rule javaMethodRule,
    -- (r'[^\S\n]+', Text)
    rl (rePlus false (Re.cls true [Cls.nspace, Cls.chr '\n'])) Tok.text,
    -- (r'//.*?\n', Comment)
    rl (reCat [reStr "//", Re.star true Re.dot, Re.chr '\n']) Tok.comment,
    -- (r'/\*.*?\*/', Comment)
    rl (reCat [reStr "/*", Re.star true Re.dot, reStr "*/"]) Tok.comment,
    -- (r'@[a-zA-Z_][a-zA-Z0-9_\.]*', Name.Decorator)
    rl (Re.cat (Re.chr '@') javaDottedRe) Tok.nameDecorator,
    -- (r'(abstract|assert|break|case|catch|const|continue|default|do|else|enum|'
    --  r'extends|final|finally|for|if|goto|implements|import|instanceof|interface|'
    --  r'native|new|package|private|protected|public|return|static|strictfp|super|'
    --  r'switch|synchronized|this|throw|throws|transient|try|volatile|while)\b', Keyword)
    rl (Re.cat (Re.group 1 (kwords
          ["abstract", "assert", "break", "case", "catch", "const", "continue",
           "default", "do", "else", "enum", "extends", "final", "finally", "for",
           "if", "goto", "implements", "import", "instanceof", "interface",
           "native", "new", "package", "private", "protected", "public", "return",
           "static", "strictfp", "super", "switch", "synchronized", "this",
           "throw", "throws", "transient", "try", "volatile", "while"])) Re.wordB)
      Tok.keyword,
    -- (r'(boolean|byte|char|double|float|int|long|short|void)\b', Keyword.Type)
    rl (Re.cat (Re.group 1 (kwords
          ["boolean", "byte", "char", "double", "float", "int", "long", "short",
           "void"])) Re.wordB) Tok.keywordType,
    -- (r'(true|false|null)\b', Keyword.Constant)
    rl (Re.cat (Re.group 1 (kwords ["true", "false", "null"])) Re.wordB)
      Tok.keywordConstant,
    -- (r'(class)(\s+)', bygroups(Keyword, Text), 'class')
    rgTo (Re.cat (Re.group 1 (reStr "class")) (Re.group 2 (rePlus false reSp)))
      [.kind Tok.keyword, .kind Tok.text] "class",
    -- (r'"(\\\\|\\"|[^"])*"', String)
    rl (reCat [Re.chr '"',
          Re.star false (Re.group 1 (reAlts
            [reStr "\\\\", reStr "\\\"", Re.cls true [Cls.chr '"']])),
          Re.chr '"']) Tok.str,
    -- (r"'\\.'|'[^\\]'|'\\u[0-9a-f]{4}'", String.Char)
    rl (reAlts
          [reCat [Re.chr '\'', Re.chr '\\', Re.dot, Re.chr '\''],
           reCat [Re.chr '\'', Re.cls true [Cls.chr '\\'], Re.chr '\''],
           reCat [Re.chr '\'', reStr "\\u",
             reRepRange 4 4 (Re.cls false [Cls.range '0' '9', Cls.range 'a' 'f']),
             Re.chr '\'']]) Tok.strChar,
    -- (r'[a-zA-Z_][a-zA-Z0-9_]*:', Name.Label)
    rl (Re.cat identRe (Re.chr ':')) Tok.nameLabel,
    -- (r'[a-zA-Z_\$][a-zA-Z0-9_]*', Name)
    rl (Re.cat (Re.cls false [Cls.range 'a' 'z', Cls.range 'A' 'Z', Cls.chr '_', Cls.chr '$'])
          (Re.star false (Re.cls false [Cls.range 'a' 'z', Cls.range 'A' 'Z',
            Cls.range '0' '9', Cls.chr '_']))) Tok.name,
    -- (r'[~\^\*!%&\[\]\(\)\{\}<>\|+=:;,./?-]', Operator)
    rl (Re.cls false [Cls.chr '~', Cls.chr '^', Cls.chr '*', Cls.chr '!', Cls.chr '%',
          Cls.chr '&', Cls.chr '[', Cls.chr ']', Cls.chr '(', Cls.chr ')', Cls.chr '{',
          Cls.chr '}', Cls.chr '<', Cls.chr '>', Cls.chr '|', Cls.chr '+', Cls.chr '=',
          Cls.chr ':', Cls.chr ';', Cls.chr ',', Cls.chr '.', Cls.chr '/', Cls.chr '?',
          Cls.chr '-']) Tok.operator,
    -- (r'[0-9][0-9]*\.[0-9]+([eE][0-9]+)?[fd]?', Number)
    rl (reCat [Re.cls false [Cls.range '0' '9'],
          Re.star false (Re.cls false [Cls.range '0' '9']), Re.chr '.',
          rePlus false (Re.cls false [Cls.range '0' '9']),
          Re.opt false (Re.group 1 (Re.cat (Re.cls false [Cls.chr 'e', Cls.chr 'E'])
            (rePlus false (Re.cls false [Cls.range '0' '9'])))),
          Re.opt false (Re.cls false [Cls.chr 'f', Cls.chr 'd'])]) Tok.number,
    -- (r'[0-9]+L?', Number)
    rl (Re.cat (rePlus false (Re.cls false [Cls.range '0' '9']))
          (Re.opt false (Re.chr 'L'))) Tok.number,
    -- (r'0x[0-9a-f]+', Number)
    rl (Re.cat (reStr "0x")
          (rePlus false (Re.cls false [Cls.range '0' '9', Cls.range 'a' 'f'])))
      Tok.number,
    -- (r'\n', Text)
    rl (Re.chr '\n') Tok.text ]

/-- JavaLexer `'class'` state. -/
def javaClass : List RawEntry :=
  [ -- (r'[a-zA-Z_][a-zA-Z0-9_]*', Name.Class, '#pop')
    rlPop identRe Tok.nameClass ]

/-- The `JavaLexer.tokens` raw table. -/
def javaRaw : RawTable :=
  [("root", javaRoot),
   ("class", javaClass)]

def javaTables : Except ExpErr ExpTable := expandAll javaRaw

def javaStates : ExpTable := javaTables.toOption.getD []

/-! ## Auxiliary tables for the claims -/

/-- The spec §8 scenario lexer: `root = [ (r"\d+", Number), (r"[a-z]+", Word) ]`. -/
def scnRaw : RawTable :=
  [("root",
    [rl (rePlus false reDig) Tok.number,
     rl (rePlus false (Re.cls false [Cls.range 'a' 'z'])) Tok.word])]

def scnFlags : Flags := ⟨false, false, true⟩

def scnStates : ExpTable := (expandAll scnRaw).toOption.getD []

/-- A minimal table in the shape of CLexer's `'root'`: a single zero-length
rule with a push transition, and a target state with no rules at all, so
no character is ever matched. -/
def zeroRaw : RawTable :=
  [("root", [.rule ⟨Re.eps, .simple Tok.text, .push "other"⟩]),
   ("other", ([] : List RawEntry))]

def zeroStates : ExpTable := (expandAll zeroRaw).toOption.getD []

/-- A cyclically including table: `a` includes `b` includes `a`. -/
def cycRaw : RawTable := [("a", [.incl "b"]), ("b", [.incl "a"])]

/-- A hostile table whose zero-length rules always change the stack but
never advance: the loop guard must stop it. -/
def hostileRaw : RawTable :=
  [("root", [.rule ⟨Re.eps, .simple Tok.text, .push "a"⟩]),
   ("a", [.rule ⟨Re.eps, .simple Tok.text, .push "b"⟩]),
   ("b", [.rule ⟨Re.eps, .simple Tok.text, .push "a"⟩])]

def hostileStates : ExpTable := (expandAll hostileRaw).toOption.getD []

/-- Syntactic check: every match of the pattern consumes at least one
character. -/
def Re.consumesB : Re → Bool
  | .eps => false
  | .chr _ => true
  | .cls _ _ => true
  | .dot => true
  | .cat p q => p.consumesB || q.consumesB
  | .alt p q => p.consumesB && q.consumesB
  | .star _ _ => false
  | .opt _ _ => false
  | .group _ p => p.consumesB
  | .look _ _ => false
  | .lookb _ _ => false
  | .bol => false
  | .wordB => false

/-- Syntactic check: the pattern contains no capture group, so matching it
never records a group. -/
def Re.groupFreeB : Re → Bool
  | .eps => true
  | .chr _ => true
  | .cls _ _ => true
  | .dot => true
  | .cat p q => p.groupFreeB && q.groupFreeB
  | .alt p q => p.groupFreeB && q.groupFreeB
  | .star _ p => p.groupFreeB
  | .opt _ p => p.groupFreeB
  | .group _ _ => false
  | .look _ p => p.groupFreeB
  | .lookb _ _ => true
  | .bol => true
  | .wordB => true

/-- The table's delegations always re-scan a strict substring: whenever a
rule of the table matches and its `bygroups` action delegates the group at
list position `j` (group index `j + 1`), that group's captured span is
strictly shorter than the whole input.  Necessary for termination: a rule
delegating its whole match to `using(this)` would recurse forever, in the
Python engine as well. -/
def selfSpansShort (tbl : ExpTable) (fl : Flags) : Prop :=
  ∀ (input : List Char) (sname : String) (rs : List Rule) (r : Rule)
    (pos e : Nat) (g : GroupsA) (gs : List GAct) (j s t : Nat),
    (sname, rs) ∈ tbl → r ∈ rs → pos < input.length →
    (r.pat.matchEnds fl input pos []).head? = some (e, g) →
    r.act = .grouped gs → gs.get? j = some .self →
    lookupGroup g (j + 1) = some (s, t) →
    t - s < input.length

/-- Fuel sufficient for any scan of an input of length at most `L` over a
table whose delegations are strict substrings: one scan's worth of steps
per nesting level, levels bounded by the shrinking input length. -/
def needFuel (bound : Nat) : Nat → Nat
  | 0 => 1
  | L + 1 => (L + 2) * (bound + 1) + 1 + needFuel bound L

/-! ## Helper lemmas -/

theorem sliceOf_empty (l : List Char) (a b : Nat) (h : b ≤ a) : sliceOf l a b = [] := by
  simp [sliceOf, Nat.sub_eq_zero_of_le h]

theorem sliceOf_append (l : List Char) (a b c : Nat) (h1 : a ≤ b) (h2 : b ≤ c) :
    sliceOf l a b ++ sliceOf l b c = sliceOf l a c := by
  unfold sliceOf
  have hc : c - a = (b - a) + (c - b) := by omega
  rw [hc, List.take_add]
  congr 1
  rw [List.drop_drop]
  congr 2
  omega

theorem sliceOf_all (l : List Char) : sliceOf l 0 l.length = l := by
  simp [sliceOf]

theorem sliceOf_length (l : List Char) (a b : Nat) (h1 : a ≤ b) (h2 : b ≤ l.length) :
    (sliceOf l a b).length = b - a := by
  simp [sliceOf]
  omega

theorem concatSlices_nil : concatSlices [] = [] := rfl

theorem concatSlices_cons (t : Token) (ts : List Token) :
    concatSlices (t :: ts) = t.slice ++ concatSlices ts := by
  simp [concatSlices]

theorem concatSlices_append (xs ys : List Token) :
    concatSlices (xs ++ ys) = concatSlices xs ++ concatSlices ys := by
  simp [concatSlices]

theorem concatSlices_shift (s : Nat) (ts : List Token) :
    concatSlices (ts.map fun tk => ⟨s + tk.start, s + tk.stop, tk.kind, tk.slice⟩) =
      concatSlices ts := by
  induction ts with
  | nil => rfl
  | cons t ts ih => simp [concatSlices_cons, ih]

theorem chainB_append {a b c : Nat} {xs ys : List Token}
    (h1 : chainB a xs b = true) (h2 : chainB b ys c = true) :
    chainB a (xs ++ ys) c = true := by
  induction xs generalizing a with
  | nil =>
    simp only [chainB, beq_iff_eq] at h1
    simpa [h1] using h2
  | cons t ts ih =>
    simp only [chainB, Bool.and_eq_true] at h1 ⊢
    exact ⟨⟨h1.1.1, h1.1.2⟩, ih h1.2⟩

theorem chainB_shift {a b : Nat} {ts : List Token} (s : Nat)
    (h : chainB a ts b = true) :
    chainB (s + a) (ts.map fun tk => ⟨s + tk.start, s + tk.stop, tk.kind, tk.slice⟩)
      (s + b) = true := by
  induction ts generalizing a with
  | nil =>
    simp only [chainB, beq_iff_eq] at h ⊢
    simp [h]
  | cons t ts ih =>
    simp only [chainB, Bool.and_eq_true, beq_iff_eq, decide_eq_true_eq, List.map] at h ⊢
    exact ⟨⟨by omega, by omega⟩, ih h.2⟩

theorem head?_mem {α : Type} {l : List α} {a : α} (h : l.head? = some a) : a ∈ l := by
  cases l with
  | nil => simp at h
  | cons x xs =>
    simp only [List.head?] at h
    simp [← Option.some_inj.mp h]

theorem lookupState_mem {tbl : ExpTable} {s : String} {rs : List Rule}
    (h : lookupState tbl s = some rs) : (s, rs) ∈ tbl := by
  unfold lookupState at h
  cases hf : tbl.find? fun p => p.1 == s with
  | none => simp [hf] at h
  | some p =>
    simp only [hf, Option.map_some] at h
    have hp := List.mem_of_find?_eq_some hf
    have he := List.find?_some hf
    have : p = (s, rs) := by
      cases p with
      | mk p1 p2 =>
        simp only [beq_iff_eq] at he
        simp_all
    rwa [← this]

theorem lookupGroup_mem {g : GroupsA} {i s t : Nat}
    (h : lookupGroup g i = some (s, t)) : (i, s, t) ∈ g := by
  unfold lookupGroup at h
  cases hf : g.find? fun x => x.1 == i with
  | none => simp [hf] at h
  | some x =>
    simp only [hf, Option.map_some] at h
    have hx := List.mem_of_find?_eq_some hf
    have he := List.find?_some hf
    have : x = (i, s, t) := by
      obtain ⟨x1, x2, x3⟩ := x
      simp only [beq_iff_eq] at he
      simp_all
    rwa [← this]

theorem firstAccepted_mem {fl : Flags} {input : List Char} {pos : Nat}
    {stk : List String} {rules : List Rule} {r : Rule} {e : Nat} {g : GroupsA}
    (h : firstAccepted fl input pos stk rules = some (r, e, g)) :
    r ∈ rules ∧ (r.pat.matchEnds fl input pos []).head? = some (e, g) := by
  induction rules with
  | nil => simp [firstAccepted] at h
  | cons r0 rest ih =>
    cases hm : (r0.pat.matchEnds fl input pos []).head? with
    | none =>
      simp only [firstAccepted, hm] at h
      have := ih h
      exact ⟨List.mem_cons_of_mem _ this.1, this.2⟩
    | some eg =>
      obtain ⟨e0, g0⟩ := eg
      simp only [firstAccepted, hm] at h
      by_cases hz : (e0 == pos && applyTrans r0.trans stk == stk) = true
      · rw [if_pos hz] at h
        have := ih h
        exact ⟨List.mem_cons_of_mem _ this.1, this.2⟩
      · rw [if_neg hz] at h
        have : r0 = r ∧ e0 = e ∧ g0 = g := by
          have := Option.some_inj.mp h
          exact ⟨congrArg (·.1) this, congrArg (·.2.1) this, congrArg (·.2.2) this⟩
        obtain ⟨rfl, rfl, rfl⟩ := this
        exact ⟨List.mem_cons_self _ _, hm⟩

theorem get?_lt {l : List Char} {n : Nat} {c : Char} (h : l.get? n = some c) :
    n < l.length := by
  by_contra hn
  push_neg at hn
  rw [List.get?_eq_none.mpr hn] at h
  exact absurd h (by simp)

theorem starLoop_bounds {elem : Nat → GroupsA → MRes} {lzy : Bool} {L : Nat}
    (hel : ∀ p g e g2, (e, g2) ∈ elem p g → p ≤ e ∧ (p ≤ L → e ≤ L)) :
    ∀ (fuel pos : Nat) (g : GroupsA) (e : Nat) (g2 : GroupsA),
      (e, g2) ∈ starLoop elem lzy fuel pos g → pos ≤ e ∧ (pos ≤ L → e ≤ L) := by
  intro fuel
  induction fuel with
  | zero =>
    intro pos g e g2 hm
    simp only [starLoop, List.mem_singleton, Prod.mk.injEq] at hm
    obtain ⟨rfl, rfl⟩ := hm
    exact ⟨Nat.le_refl _, fun h => h⟩
  | succ fuel ih =>
    intro pos g e g2 hm
    simp only [starLoop] at hm
    have hbase : (e, g2) = (pos, g) → pos ≤ e ∧ (pos ≤ L → e ≤ L) := by
      intro hq
      obtain ⟨rfl, rfl⟩ := Prod.mk.injEq .. ▸ hq
      exact ⟨Nat.le_refl _, fun h => h⟩
    have hrest :
        (e, g2) ∈ ((elem pos g).flatMap fun eg =>
          if pos < eg.1 then starLoop elem lzy fuel eg.1 eg.2 else []) →
        pos ≤ e ∧ (pos ≤ L → e ≤ L) := by
      intro hq
      obtain ⟨eg, hmem, hin⟩ := List.mem_flatMap.mp hq
      by_cases hlt : pos < eg.1
      · rw [if_pos hlt] at hin
        obtain ⟨h1, h2⟩ := hel pos g eg.1 eg.2 (by cases eg; exact hmem)
        obtain ⟨h3, h4⟩ := ih eg.1 eg.2 e g2 hin
        exact ⟨Nat.le_trans h1 h3, fun h => h4 (h2 h)⟩
      · rw [if_neg hlt] at hin
        exact absurd hin (List.not_mem_nil _)
    cases lzy with
    | true =>
      rw [if_pos rfl] at hm
      rcases List.mem_cons.mp hm with hq | hq
      · exact hbase hq
      · exact hrest hq
    | false =>
      rw [if_neg (by simp)] at hm
      rcases List.mem_append.mp hm with hq | hq
      · exact hrest hq
      · exact hbase (List.mem_singleton.mp hq)

theorem matchEnds_bounds (fl : Flags) (input : List Char) :
    ∀ (p : Re) (pos : Nat) (g : GroupsA) (e : Nat) (g2 : GroupsA),
      (e, g2) ∈ Re.matchEnds fl input p pos g →
      pos ≤ e ∧ (pos ≤ input.length → e ≤ input.length) := by
  intro p
  induction p with
  | eps =>
    intro pos g e g2 hm
    simp only [Re.matchEnds, List.mem_singleton, Prod.mk.injEq] at hm
    obtain ⟨rfl, rfl⟩ := hm
    exact ⟨Nat.le_refl _, fun h => h⟩
  | chr c =>
    intro pos g e g2 hm
    cases hg : input.get? pos with
    | none => simp only [Re.matchEnds, hg, List.not_mem_nil] at hm
    | some d =>
      simp only [Re.matchEnds, hg] at hm
      by_cases hc : ceq fl.ci d c = true
      · rw [if_pos hc] at hm
        simp only [List.mem_singleton, Prod.mk.injEq] at hm
        obtain ⟨rfl, rfl⟩ := hm
        have := get?_lt hg
        exact ⟨Nat.le_succ _, fun _ => this⟩
      · rw [if_neg hc] at hm
        exact absurd hm (List.not_mem_nil _)
  | cls neg items =>
    intro pos g e g2 hm
    cases hg : input.get? pos with
    | none => simp only [Re.matchEnds, hg, List.not_mem_nil] at hm
    | some d =>
      simp only [Re.matchEnds, hg] at hm
      by_cases hc : clsTest fl.ci neg items d = true
      · rw [if_pos hc] at hm
        simp only [List.mem_singleton, Prod.mk.injEq] at hm
        obtain ⟨rfl, rfl⟩ := hm
        have := get?_lt hg
        exact ⟨Nat.le_succ _, fun _ => this⟩
      · rw [if_neg hc] at hm
        exact absurd hm (List.not_mem_nil _)
  | dot =>
    intro pos g e g2 hm
    cases hg : input.get? pos with
    | none => simp only [Re.matchEnds, hg, List.not_mem_nil] at hm
    | some d =>
      simp only [Re.matchEnds, hg] at hm
      by_cases hc : (fl.dotall || d ≠ '\n') = true
      · rw [if_pos hc] at hm
        simp only [List.mem_singleton, Prod.mk.injEq] at hm
        obtain ⟨rfl, rfl⟩ := hm
        have := get?_lt hg
        exact ⟨Nat.le_succ _, fun _ => this⟩
      · rw [if_neg hc] at hm
        exact absurd hm (List.not_mem_nil _)
  | cat p q ihp ihq =>
    intro pos g e g2 hm
    simp only [Re.matchEnds] at hm
    obtain ⟨eg, hmem, hin⟩ := List.mem_flatMap.mp hm
    obtain ⟨h1, h2⟩ := ihp pos g eg.1 eg.2 (by cases eg; exact hmem)
    obtain ⟨h3, h4⟩ := ihq eg.1 eg.2 e g2 hin
    exact ⟨Nat.le_trans h1 h3, fun h => h4 (h2 h)⟩
  | alt p q ihp ihq =>
    intro pos g e g2 hm
    simp only [Re.matchEnds] at hm
    rcases List.mem_append.mp hm with hq | hq
    · exact ihp pos g e g2 hq
    · exact ihq pos g e g2 hq
  | star lzy p ih =>
    intro pos g e g2 hm
    simp only [Re.matchEnds] at hm
    exact starLoop_bounds (fun s h e' g' hq => ih s h e' g' hq) _ pos g e g2 hm
  | opt lzy p ih =>
    intro pos g e g2 hm
    simp only [Re.matchEnds] at hm
    cases lzy with
    | true =>
      rw [if_pos rfl] at hm
      rcases List.mem_cons.mp hm with hq | hq
      · obtain ⟨rfl, rfl⟩ := Prod.mk.injEq .. ▸ hq
        exact ⟨Nat.le_refl _, fun h => h⟩
      · exact ih pos g e g2 hq
    | false =>
      rw [if_neg (by simp)] at hm
      rcases List.mem_append.mp hm with hq | hq
      · exact ih pos g e g2 hq
      · obtain ⟨rfl, rfl⟩ := Prod.mk.injEq .. ▸ List.mem_singleton.mp hq
        exact ⟨Nat.le_refl _, fun h => h⟩
  | group i p ih =>
    intro pos g e g2 hm
    simp only [Re.matchEnds, List.mem_map] at hm
    obtain ⟨eg, hmem, heq⟩ := hm
    have he : eg.1 = e := congrArg Prod.fst heq
    subst he
    exact ih pos g eg.1 eg.2 (by cases eg; exact hmem)
  | look neg p ih =>
    intro pos g e g2 hm
    simp only [Re.matchEnds] at hm
    have he : e = pos := by
      split_ifs at hm <;>
        simp only [List.mem_singleton, Prod.mk.injEq, List.not_mem_nil] at hm <;>
        exact hm.1
    subst he
    exact ⟨Nat.le_refl _, fun h => h⟩
  | lookb neg c =>
    intro pos g e g2 hm
    simp only [Re.matchEnds] at hm
    have he : e = pos := by
      split_ifs at hm <;>
        simp only [List.mem_singleton, Prod.mk.injEq, List.not_mem_nil] at hm <;>
        exact hm.1
    subst he
    exact ⟨Nat.le_refl _, fun h => h⟩
  | bol =>
    intro pos g e g2 hm
    simp only [Re.matchEnds] at hm
    have he : e = pos := by
      split_ifs at hm <;>
        simp only [List.mem_singleton, Prod.mk.injEq, List.not_mem_nil] at hm <;>
        exact hm.1
    subst he
    exact ⟨Nat.le_refl _, fun h => h⟩
  | wordB =>
    intro pos g e g2 hm
    simp only [Re.matchEnds] at hm
    have he : e = pos := by
      split_ifs at hm <;>
        simp only [List.mem_singleton, Prod.mk.injEq, List.not_mem_nil] at hm <;>
        exact hm.1
    subst he
    exact ⟨Nat.le_refl _, fun h => h⟩

theorem consRes_ok {t : Token} {r : Res} {ts : List Token}
    (h : consRes t r = some (.ok ts)) : ∃ ts', r = some (.ok ts') ∧ ts = t :: ts' := by
  cases r with
  | none => simp [consRes] at h
  | some x =>
    cases x with
    | error er =>
      exfalso
      simp only [consRes, Option.map_some] at h
      have := Option.some_inj.mp h
      simp [Except.map] at this
    | ok us =>
      simp only [consRes, Option.map_some] at h
      have h2 := Option.some_inj.mp h
      simp only [Except.map] at h2
      exact ⟨us, rfl, (Except.ok.inj h2).symm⟩

theorem appendRes_ok {us : List Token} {r : Res} {ts : List Token}
    (h : appendRes us r = some (.ok ts)) : ∃ ts', r = some (.ok ts') ∧ ts = us ++ ts' := by
  cases r with
  | none => simp [appendRes] at h
  | some x =>
    cases x with
    | error er =>
      exfalso
      simp only [appendRes, Option.map_some] at h
      have := Option.some_inj.mp h
      simp [Except.map] at this
    | ok vs =>
      simp only [appendRes, Option.map_some] at h
      have h2 := Option.some_inj.mp h
      simp only [Except.map] at h2
      exact ⟨vs, rfl, (Except.ok.inj h2).symm⟩

theorem gpCheck_le {g : GroupsA} {len : Nat} :
    ∀ {gs : List GAct} {i c e : Nat}, gpCheck g len gs i c e = true → c ≤ e := by
  intro gs
  induction gs with
  | nil =>
    intro i c e h
    simp only [gpCheck, beq_iff_eq] at h
    omega
  | cons ga rest ih =>
    intro i c e h
    simp only [gpCheck] at h
    cases hl : lookupGroup g i with
    | none =>
      rw [hl] at h
      exact ih h
    | some st =>
      obtain ⟨s, t⟩ := st
      rw [hl] at h
      simp only [Bool.and_eq_true, beq_iff_eq, decide_eq_true_eq] at h
      have := ih h.2
      omega

theorem coverOK_rule {tbl : ExpTable} {fl : Flags} {input : List Char}
    (h : coverOK tbl fl input = true) {sname : String} {rs : List Rule} {r : Rule}
    {pos : Nat} (hs : (sname, rs) ∈ tbl) (hr : r ∈ rs) (hp : pos ≤ input.length) :
    ruleCoverOK fl input r pos = true := by
  unfold coverOK at h
  rw [List.all_eq_true] at h
  have h1 := h _ hs
  rw [List.all_eq_true] at h1
  have h2 := h1 _ hr
  rw [List.all_eq_true] at h2
  exact h2 _ (List.mem_range.mpr (by omega))

theorem emitGroups_cover {nest : List Char → Res} {input : List Char} {g : GroupsA}
    (hnest : ∀ s ts, nest s = some (.ok ts) →
      concatSlices ts = s ∧ chainB 0 ts s.length = true) :
    ∀ (gs : List GAct) (i c e : Nat) (ts : List Token),
      gpCheck g input.length gs i c e = true →
      emitGroups nest input g gs i = some (.ok ts) →
      concatSlices ts = sliceOf input c e ∧ chainB c ts e = true := by
  intro gs
  induction gs with
  | nil =>
    intro i c e ts hc hr
    simp only [gpCheck, beq_iff_eq] at hc
    subst hc
    simp only [emitGroups] at hr
    have := Except.ok.inj (Option.some_inj.mp hr)
    subst this
    refine ⟨?_, by simp [chainB]⟩
    rw [concatSlices_nil, sliceOf_empty input c c (Nat.le_refl c)]
  | cons ga rest ih =>
    intro i c e ts hc hr
    have hcl : gpCheck g input.length (ga :: rest) i c e = true := hc
    cases hl : lookupGroup g i with
    | none =>
      have hc' : gpCheck g input.length rest (i + 1) c e = true := by
        simp only [gpCheck, hl] at hcl
        exact hcl
      cases ga with
      | kind k =>
        simp only [emitGroups, hl] at hr
        exact ih (i + 1) c e ts hc' hr
      | self =>
        simp only [emitGroups, hl] at hr
        exact ih (i + 1) c e ts hc' hr
    | some st =>
      obtain ⟨s, t⟩ := st
      have hparts : s = c ∧ s ≤ t ∧ t ≤ input.length ∧
          gpCheck g input.length rest (i + 1) t e = true := by
        simp only [gpCheck, hl, Bool.and_eq_true, beq_iff_eq, decide_eq_true_eq] at hcl
        tauto
      obtain ⟨rfl, hst, htl, hc'⟩ := hparts
      have hte : t ≤ e := gpCheck_le hc'
      cases ga with
      | kind k =>
        simp only [emitGroups, hl] at hr
        obtain ⟨ts', hrec, rfl⟩ := consRes_ok hr
        obtain ⟨hcon, hch⟩ := ih (i + 1) t e ts' hc' hrec
        constructor
        · rw [concatSlices_cons]
          show sliceOf input s t ++ concatSlices ts' = sliceOf input s e
          rw [hcon]
          exact sliceOf_append input s t e hst hte
        · simp [chainB, hst, hch]
      | self =>
        simp only [emitGroups, hl] at hr
        cases hn : nest (sliceOf input s t) with
        | none => rw [hn] at hr; simp at hr
        | some x =>
          cases x with
          | error er => rw [hn] at hr; simp at hr
          | ok nts =>
            rw [hn] at hr
            obtain ⟨ts', hrec, rfl⟩ := appendRes_ok hr
            obtain ⟨hcon, hch⟩ := ih (i + 1) t e ts' hc' hrec
            obtain ⟨hncon, hnch⟩ := hnest _ _ hn
            have hlen : (sliceOf input s t).length = t - s :=
              sliceOf_length input s t hst htl
            have hshift := @chainB_shift 0 ((sliceOf input s t).length) _ s hnch
            rw [hlen] at hshift
            have hs0 : s + 0 = s := rfl
            have hstt : s + (t - s) = t := by omega
            rw [hs0, hstt] at hshift
            constructor
            · rw [concatSlices_append, concatSlices_shift, hncon, hcon]
              exact sliceOf_append input s t e hst hte
            · exact chainB_append hshift hch

theorem scanAux_cover (tbl : ExpTable) (fl : Flags) (bound : Nat)
    (hcov : ∀ s : List Char, coverOK tbl fl s = true) :
    ∀ (fuel : Nat) (input : List Char) (pos : Nat) (stk : List String) (guard : Nat)
      (toks : List Token), pos ≤ input.length →
      scanAux tbl fl bound fuel input pos stk guard = some (.ok toks) →
      concatSlices toks = sliceOf input pos input.length ∧
        chainB pos toks input.length = true := by
  intro fuel
  induction fuel with
  | zero =>
    intro input pos stk guard toks hp h
    simp [scanAux] at h
  | succ fuel ih =>
    intro input pos stk guard toks hp h
    by_cases hlt : pos < input.length
    · simp only [scanAux] at h
      rw [if_pos hlt] at h
      cases hfa : firstAccepted fl input pos stk
          ((lookupState tbl (stk.headD "root")).getD []) with
      | none =>
        simp only [hfa] at h
        obtain ⟨ts', hrec, rfl⟩ := consRes_ok h
        obtain ⟨hcon, hch⟩ := ih input (pos + 1) stk bound ts' (by omega) hrec
        constructor
        · rw [concatSlices_cons]
          show sliceOf input pos (pos + 1) ++ concatSlices ts' = _
          rw [hcon]
          exact sliceOf_append input pos (pos + 1) input.length (by omega) (by omega)
        · simp [chainB, hch]
      | some reg =>
        obtain ⟨r, e, g⟩ := reg
        obtain ⟨hrmem, hhead⟩ := firstAccepted_mem hfa
        cases hls : lookupState tbl (stk.headD "root") with
        | none =>
          rw [hls] at hrmem
          simp at hrmem
        | some rs =>
          rw [hls] at hrmem
          simp only [Option.getD_some] at hrmem
          have hsmem := lookupState_mem hls
          have hrok := coverOK_rule (hcov input) hsmem hrmem (le_of_lt hlt)
          have hmm := head?_mem hhead
          obtain ⟨hpe, hle⟩ := matchEnds_bounds fl input r.pat pos [] e g hmm
          have hel : e ≤ input.length := hle (le_of_lt hlt)
          have hnest : ∀ (s : List Char) (ts : List Token),
              scanAux tbl fl bound fuel s 0 ["root"] bound = some (.ok ts) →
              concatSlices ts = s ∧ chainB 0 ts s.length = true := by
            intro s ts hn
            obtain ⟨hcon, hch⟩ := ih s 0 ["root"] bound ts (Nat.zero_le _) hn
            rw [sliceOf_all] at hcon
            exact ⟨hcon, hch⟩
          simp only [hfa] at h
          cases hea : emitAction (fun s => scanAux tbl fl bound fuel s 0 ["root"] bound)
              input pos e g r.act with
          | none => simp [hea] at h
          | some x =>
            cases x with
            | error er => simp [hea] at h
            | ok ts0 =>
              simp only [hea] at h
              have hts0 : concatSlices ts0 = sliceOf input pos e ∧
                  chainB pos ts0 e = true := by
                cases hact : r.act with
                | simple k =>
                  rw [hact] at hea
                  simp only [emitAction] at hea
                  have hts : [(⟨pos, e, k, sliceOf input pos e⟩ : Token)] = ts0 :=
                    Except.ok.inj (Option.some_inj.mp hea)
                  subst hts
                  constructor
                  · simp [concatSlices_cons, concatSlices_nil]
                  · simp [chainB, hpe]
                | grouped gs =>
                  rw [hact] at hea
                  simp only [emitAction] at hea
                  have hgp : gpCheck g input.length gs 1 pos e = true := by
                    unfold ruleCoverOK at hrok
                    rw [hhead, hact] at hrok
                    exact hrok
                  exact emitGroups_cover hnest gs 1 pos e ts0 hgp hea
              by_cases hadv : pos < e
              · rw [if_pos hadv] at h
                obtain ⟨ts', hrec, rfl⟩ := appendRes_ok h
                obtain ⟨hcon2, hch2⟩ :=
                  ih input e (applyTrans r.trans stk) bound ts' hel hrec
                constructor
                · rw [concatSlices_append, hts0.1, hcon2]
                  exact sliceOf_append input pos e input.length hpe hel
                · exact chainB_append hts0.2 hch2
              · have hee : e = pos := by omega
                subst hee
                rw [if_neg hadv] at h
                by_cases hg0 : guard = 0
                · rw [if_pos hg0] at h
                  simp at h
                · rw [if_neg hg0] at h
                  obtain ⟨ts', hrec, rfl⟩ := appendRes_ok h
                  obtain ⟨hcon2, hch2⟩ :=
                    ih input e (applyTrans r.trans stk) (guard - 1) ts' hp hrec
                  constructor
                  · rw [concatSlices_append, hts0.1, hcon2,
                      sliceOf_empty input e e (Nat.le_refl _)]
                    simp
                  · exact chainB_append hts0.2 hch2
    · have hpe : pos = input.length := by omega
      simp only [scanAux] at h
      rw [if_neg hlt] at h
      have hts : ([] : List Token) = toks := Except.ok.inj (Option.some_inj.mp h)
      subst hts
      constructor
      · rw [concatSlices_nil, sliceOf_empty input pos input.length (by omega)]
      · simp [chainB, hpe]

theorem allSimple_coverOK (tbl : ExpTable) (h : allSimpleStates tbl = true)
    (fl : Flags) (input : List Char) : coverOK tbl fl input = true := by
  unfold coverOK
  rw [List.all_eq_true]
  intro p hp
  rw [List.all_eq_true]
  intro r hr
  rw [List.all_eq_true]
  intro pos _
  unfold allSimpleStates at h
  rw [List.all_eq_true] at h
  have h1 := h p hp
  rw [List.all_eq_true] at h1
  have h2 := h1 r hr
  unfold ruleCoverOK
  cases hm : (r.pat.matchEnds fl input pos []).head? with
  | none => simp [hm]
  | some eg =>
    obtain ⟨e, g⟩ := eg
    simp only [hm]
    cases hact : r.act with
    | simple k => simp
    | grouped gs =>
      rw [hact] at h2
      simp [actSimple] at h2

theorem noDelegation_rule {tbl : ExpTable} (h : noDelegation tbl = true)
    {sname : String} {rs : List Rule} {r : Rule}
    (hs : (sname, rs) ∈ tbl) (hr : r ∈ rs) : actNoSelf r.act = true := by
  unfold noDelegation at h
  rw [List.all_eq_true] at h
  have h1 := h _ hs
  rw [List.all_eq_true] at h1
  exact h1 _ hr

theorem consRes_isSome (t : Token) (r : Res) : (consRes t r).isSome = r.isSome := by
  cases r <;> simp [consRes]

theorem appendRes_isSome (ts : List Token) (r : Res) :
    (appendRes ts r).isSome = r.isSome := by
  cases r <;> simp [appendRes]

theorem emitGroups_noSelf {nest : List Char → Res} {input : List Char} {g : GroupsA}
    {gs : List GAct} (h : gs.all gactNoSelf = true) :
    ∀ i, ∃ ts, emitGroups nest input g gs i = some (.ok ts) := by
  induction gs with
  | nil => intro i; exact ⟨[], rfl⟩
  | cons ga rest ih =>
    intro i
    simp only [List.all_cons, Bool.and_eq_true] at h
    cases ga with
    | kind k =>
      obtain ⟨ts, hts⟩ := ih h.2 (i + 1)
      cases hl : lookupGroup g i with
      | none => exact ⟨ts, by simp [emitGroups, hl, hts]⟩
      | some st =>
        obtain ⟨s, t⟩ := st
        exact ⟨⟨s, t, k, sliceOf input s t⟩ :: ts,
          by simp [emitGroups, hl, hts, consRes, Except.map]⟩
    | self =>
      exfalso
      simp [gactNoSelf] at h

theorem emitAction_noSelf {nest : List Char → Res} {input : List Char}
    {pos e : Nat} {g : GroupsA} {a : Act} (h : actNoSelf a = true) :
    ∃ ts, emitAction nest input pos e g a = some (.ok ts) := by
  cases a with
  | simple k => exact ⟨[⟨pos, e, k, sliceOf input pos e⟩], rfl⟩
  | grouped gs =>
    unfold actNoSelf at h
    exact emitGroups_noSelf h 1

theorem scanAux_isSome (tbl : ExpTable) (fl : Flags) (bound : Nat)
    (hnd : noDelegation tbl = true) :
    ∀ (fuel : Nat) (input : List Char) (pos : Nat) (stk : List String) (guard : Nat),
      (input.length - pos) * (bound + 1) + guard + 1 ≤ fuel →
      (scanAux tbl fl bound fuel input pos stk guard).isSome = true := by
  intro fuel
  induction fuel with
  | zero =>
    intro input pos stk guard hf
    omega
  | succ fuel ih =>
    intro input pos stk guard hf
    by_cases hlt : pos < input.length
    · simp only [scanAux]
      rw [if_pos hlt]
      cases hfa : firstAccepted fl input pos stk
          ((lookupState tbl (stk.headD "root")).getD []) with
      | none =>
        rw [consRes_isSome]
        apply ih
        have h1 : input.length - pos = (input.length - (pos + 1)) + 1 := by omega
        rw [h1, Nat.succ_mul] at hf
        omega
      | some reg =>
        obtain ⟨r, e, g⟩ := reg
        obtain ⟨hrmem, _⟩ := firstAccepted_mem hfa
        cases hls : lookupState tbl (stk.headD "root") with
        | none =>
          rw [hls] at hrmem
          simp at hrmem
        | some rs =>
          rw [hls] at hrmem
          simp only [Option.getD_some] at hrmem
          have hns := noDelegation_rule hnd (lookupState_mem hls) hrmem
          obtain ⟨ts0, hea⟩ := @emitAction_noSelf
            (fun s => scanAux tbl fl bound fuel s 0 ["root"] bound)
            input pos e g r.act hns
          simp only [hea]
          by_cases hadv : pos < e
          · rw [if_pos hadv, appendRes_isSome]
            apply ih
            have h1 : input.length - pos = (input.length - (pos + 1)) + 1 := by omega
            have h2 : input.length - e ≤ input.length - (pos + 1) := by omega
            have h3 : (input.length - e) * (bound + 1) ≤
                (input.length - (pos + 1)) * (bound + 1) :=
              Nat.mul_le_mul_right _ h2
            rw [h1, Nat.succ_mul] at hf
            omega
          · rw [if_neg hadv]
            by_cases hg0 : guard = 0
            · rw [if_pos hg0]
              rfl
            · rw [if_neg hg0, appendRes_isSome]
              apply ih
              omega
    · simp only [scanAux]
      rw [if_neg hlt]
      rfl

theorem noErrorEmit_rule {tbl : ExpTable} (h : noErrorEmit tbl = true)
    {sname : String} {rs : List Rule} {r : Rule}
    (hs : (sname, rs) ∈ tbl) (hr : r ∈ rs) : actNoError r.act = true := by
  unfold noErrorEmit at h
  rw [List.all_eq_true] at h
  have h1 := h _ hs
  rw [List.all_eq_true] at h1
  exact h1 _ hr

theorem zeroMatchOnly_rule {tbl : ExpTable} {fl : Flags} {input : List Char}
    (h : zeroMatchOnly tbl fl input = true) {sname : String} {rs : List Rule}
    {r : Rule} {pos e : Nat} {g : GroupsA}
    (hs : (sname, rs) ∈ tbl) (hr : r ∈ rs) (hp : pos ≤ input.length)
    (hm : (r.pat.matchEnds fl input pos []).head? = some (e, g)) :
    e = pos ∧ ∀ x ∈ g, x.2.1 = pos ∧ x.2.2 = pos := by
  unfold zeroMatchOnly at h
  rw [List.all_eq_true] at h
  have h1 := h _ hs
  rw [List.all_eq_true] at h1
  have h2 := h1 _ hr
  rw [List.all_eq_true] at h2
  have h3 := h2 pos (List.mem_range.mpr (by omega))
  rw [hm] at h3
  simp only [Bool.and_eq_true, beq_iff_eq, List.all_eq_true] at h3
  exact ⟨h3.1, fun x hx => (h3.2 x hx : _ ∧ _)⟩

theorem scanAux_empty (tbl : ExpTable) (fl : Flags) (bound fuel pos : Nat)
    (stk : List String) (guard : Nat) :
    scanAux tbl fl bound fuel [] pos stk guard = none ∨
    scanAux tbl fl bound fuel [] pos stk guard = some (.ok []) := by
  cases fuel with
  | zero => exact Or.inl rfl
  | succ f =>
    right
    simp [scanAux]

theorem emitGroups_noError {nest : List Char → Res} {input : List Char} {g : GroupsA}
    (hz : ∀ x ∈ g, x.2.1 = x.2.2)
    (hnest0 : nest [] = none ∨ nest [] = some (.ok [])) :
    ∀ {gs : List GAct} (hne : gs.all gactNoError = true) {i : Nat} {ts : List Token},
      emitGroups nest input g gs i = some (.ok ts) →
      ts.filter (fun t => t.kind == Tok.error) = [] := by
  intro gs
  induction gs with
  | nil =>
    intro _ i ts hr
    have := Except.ok.inj (Option.some_inj.mp hr)
    subst this
    rfl
  | cons ga rest ih =>
    intro hne i ts hr
    simp only [List.all_cons, Bool.and_eq_true] at hne
    cases ga with
    | kind k =>
      cases hl : lookupGroup g i with
      | none =>
        simp only [emitGroups, hl] at hr
        exact ih hne.2 hr
      | some st =>
        obtain ⟨s, t⟩ := st
        simp only [emitGroups, hl] at hr
        obtain ⟨ts', hrec, rfl⟩ := consRes_ok hr
        have hk : (k == Tok.error) = false := by
          simpa [gactNoError] using hne.1
        simp only [List.filter_cons, hk]
        exact ih hne.2 hrec
    | self =>
      cases hl : lookupGroup g i with
      | none =>
        simp only [emitGroups, hl] at hr
        exact ih hne.2 hr
      | some st =>
        obtain ⟨s, t⟩ := st
        have hst : s = t := hz _ (lookupGroup_mem hl)
        have hsl : sliceOf input s t = [] := sliceOf_empty input s t (by omega)
        simp only [emitGroups, hl, hsl] at hr
        rcases hnest0 with hn | hn
        · rw [hn] at hr
          simp at hr
        · simp only [hn] at hr
          obtain ⟨ts', hrec, rfl⟩ := appendRes_ok hr
          simpa using ih hne.2 hrec

theorem scanAux_zeroOnly (tbl : ExpTable) (fl : Flags) (bound : Nat)
    (input : List Char) (hz : zeroMatchOnly tbl fl input = true)
    (hne : noErrorEmit tbl = true) :
    ∀ (fuel pos : Nat) (stk : List String) (guard : Nat) (toks : List Token),
      pos ≤ input.length →
      scanAux tbl fl bound fuel input pos stk guard = some (.ok toks) →
      toks.filter (fun t => t.kind == Tok.error) =
        (List.range' pos (input.length - pos)).map
          (fun i => ⟨i, i + 1, Tok.error, sliceOf input i (i + 1)⟩) := by
  intro fuel
  induction fuel with
  | zero =>
    intro pos stk guard toks hp h
    simp [scanAux] at h
  | succ fuel ih =>
    intro pos stk guard toks hp h
    by_cases hlt : pos < input.length
    · simp only [scanAux] at h
      rw [if_pos hlt] at h
      cases hfa : firstAccepted fl input pos stk
          ((lookupState tbl (stk.headD "root")).getD []) with
      | none =>
        simp only [hfa] at h
        obtain ⟨ts', hrec, rfl⟩ := consRes_ok h
        have hrest := ih (pos + 1) stk bound ts' (by omega) hrec
        have hn : input.length - pos = (input.length - (pos + 1)) + 1 := by omega
        rw [hn, List.range'_succ, List.map_cons]
        simp [List.filter_cons, hrest]
      | some reg =>
        obtain ⟨r, e, g⟩ := reg
        obtain ⟨hrmem, hhead⟩ := firstAccepted_mem hfa
        cases hls : lookupState tbl (stk.headD "root") with
        | none =>
          rw [hls] at hrmem
          simp at hrmem
        | some rs =>
          rw [hls] at hrmem
          simp only [Option.getD_some] at hrmem
          have hsmem := lookupState_mem hls
          obtain ⟨hez, hgz⟩ :=
            zeroMatchOnly_rule hz hsmem hrmem (le_of_lt hlt) hhead
          subst hez
          have hnerule := noErrorEmit_rule hne hsmem hrmem
          simp only [hfa] at h
          cases hea : emitAction (fun s => scanAux tbl fl bound fuel s 0 ["root"] bound)
              input e e g r.act with
          | none => simp [hea] at h
          | some x =>
            cases x with
            | error er => simp [hea] at h
            | ok ts0 =>
              simp only [hea] at h
              have hts0 : ts0.filter (fun t => t.kind == Tok.error) = [] := by
                cases hact : r.act with
                | simple k =>
                  rw [hact] at hea
                  simp only [emitAction] at hea
                  have hts : [(⟨e, e, k, sliceOf input e e⟩ : Token)] = ts0 :=
                    Except.ok.inj (Option.some_inj.mp hea)
                  subst hts
                  have hk : (k == Tok.error) = false := by
                    rw [hact] at hnerule
                    simpa [actNoError] using hnerule
                  simp [List.filter_cons, hk]
                | grouped gs =>
                  rw [hact] at hea
                  simp only [emitAction] at hea
                  have hgz' : ∀ x ∈ g, x.2.1 = x.2.2 := by
                    intro x hx
                    obtain ⟨h1, h2⟩ := hgz x hx
                    omega
                  have hnest0 :
                      scanAux tbl fl bound fuel [] 0 ["root"] bound = none ∨
                      scanAux tbl fl bound fuel [] 0 ["root"] bound = some (.ok []) :=
                    scanAux_empty tbl fl bound fuel 0 ["root"] bound
                  have hneg : gs.all gactNoError = true := by
                    rw [hact] at hnerule
                    simpa [actNoError] using hnerule
                  exact emitGroups_noError hgz' hnest0 hneg hea
              rw [if_neg (by omega)] at h
              by_cases hg0 : guard = 0
              · rw [if_pos hg0] at h
                simp at h
              · rw [if_neg hg0] at h
                obtain ⟨ts', hrec, rfl⟩ := appendRes_ok h
                have hrest := ih e (applyTrans r.trans stk) (guard - 1) ts' hp hrec
                rw [List.filter_append, hts0, List.nil_append]
                exact hrest
    · have hpe : pos = input.length := by omega
      simp only [scanAux] at h
      rw [if_neg hlt] at h
      have hts : ([] : List Token) = toks := Except.ok.inj (Option.some_inj.mp h)
      subst hts
      rw [Nat.sub_eq_zero_of_le (by omega)]
      rfl

theorem consumesB_sound (fl : Flags) (input : List Char) :
    ∀ (p : Re), p.consumesB = true →
      ∀ (pos : Nat) (g : GroupsA) (e : Nat) (g2 : GroupsA),
        (e, g2) ∈ Re.matchEnds fl input p pos g → pos + 1 ≤ e := by
  intro p
  induction p with
  | eps => intro hc; simp [Re.consumesB] at hc
  | chr c =>
    intro _ pos g e g2 hm
    cases hg : input.get? pos with
    | none => simp only [Re.matchEnds, hg, List.not_mem_nil] at hm
    | some d =>
      simp only [Re.matchEnds, hg] at hm
      by_cases hcc : ceq fl.ci d c = true
      · rw [if_pos hcc] at hm
        simp only [List.mem_singleton, Prod.mk.injEq] at hm
        omega
      · rw [if_neg hcc] at hm
        exact absurd hm (List.not_mem_nil _)
  | cls neg items =>
    intro _ pos g e g2 hm
    cases hg : input.get? pos with
    | none => simp only [Re.matchEnds, hg, List.not_mem_nil] at hm
    | some d =>
      simp only [Re.matchEnds, hg] at hm
      by_cases hcc : clsTest fl.ci neg items d = true
      · rw [if_pos hcc] at hm
        simp only [List.mem_singleton, Prod.mk.injEq] at hm
        omega
      · rw [if_neg hcc] at hm
        exact absurd hm (List.not_mem_nil _)
  | dot =>
    intro _ pos g e g2 hm
    cases hg : input.get? pos with
    | none => simp only [Re.matchEnds, hg, List.not_mem_nil] at hm
    | some d =>
      simp only [Re.matchEnds, hg] at hm
      by_cases hcc : (fl.dotall || d ≠ '\n') = true
      · rw [if_pos hcc] at hm
        simp only [List.mem_singleton, Prod.mk.injEq] at hm
        omega
      · rw [if_neg hcc] at hm
        exact absurd hm (List.not_mem_nil _)
  | cat p q ihp ihq =>
    intro hc pos g e g2 hm
    simp only [Re.consumesB, Bool.or_eq_true] at hc
    simp only [Re.matchEnds] at hm
    obtain ⟨eg, hmem, hin⟩ := List.mem_flatMap.mp hm
    rcases hc with hcp | hcq
    · have h1 := ihp hcp pos g eg.1 eg.2 (by cases eg; exact hmem)
      have h2 := (matchEnds_bounds fl input q eg.1 eg.2 e g2 hin).1
      omega
    · have h1 := (matchEnds_bounds fl input p pos g eg.1 eg.2 (by cases eg; exact hmem)).1
      have h2 := ihq hcq eg.1 eg.2 e g2 hin
      omega
  | alt p q ihp ihq =>
    intro hc pos g e g2 hm
    simp only [Re.consumesB, Bool.and_eq_true] at hc
    simp only [Re.matchEnds] at hm
    rcases List.mem_append.mp hm with hq | hq
    · exact ihp hc.1 pos g e g2 hq
    · exact ihq hc.2 pos g e g2 hq
  | star lzy p ih => intro hc; simp [Re.consumesB] at hc
  | opt lzy p ih => intro hc; simp [Re.consumesB] at hc
  | group i p ih =>
    intro hc pos g e g2 hm
    simp only [Re.consumesB] at hc
    simp only [Re.matchEnds, List.mem_map] at hm
    obtain ⟨eg, hmem, heq⟩ := hm
    have he : e = eg.1 := (congrArg Prod.fst heq).symm
    subst he
    exact ih hc pos g eg.1 eg.2 (by cases eg; exact hmem)
  | look neg p ih => intro hc; simp [Re.consumesB] at hc
  | lookb neg c => intro hc; simp [Re.consumesB] at hc
  | bol => intro hc; simp [Re.consumesB] at hc
  | wordB => intro hc; simp [Re.consumesB] at hc

theorem starLoop_groupFree {elem : Nat → GroupsA → MRes} {lzy : Bool}
    (hel : ∀ p g e g2, (e, g2) ∈ elem p g → g2 = g) :
    ∀ (fuel pos : Nat) (g : GroupsA) (e : Nat) (g2 : GroupsA),
      (e, g2) ∈ starLoop elem lzy fuel pos g → g2 = g := by
  intro fuel
  induction fuel with
  | zero =>
    intro pos g e g2 hm
    simp only [starLoop, List.mem_singleton, Prod.mk.injEq] at hm
    exact hm.2
  | succ fuel ih =>
    intro pos g e g2 hm
    simp only [starLoop] at hm
    have hbase : (e, g2) = (pos, g) → g2 = g := fun hq =>
      congrArg Prod.snd hq
    have hrest :
        (e, g2) ∈ ((elem pos g).flatMap fun eg =>
          if pos < eg.1 then starLoop elem lzy fuel eg.1 eg.2 else []) →
        g2 = g := by
      intro hq
      obtain ⟨eg, hmem, hin⟩ := List.mem_flatMap.mp hq
      by_cases hlt : pos < eg.1
      · rw [if_pos hlt] at hin
        have h1 : eg.2 = g := hel pos g eg.1 eg.2 (by cases eg; exact hmem)
        have h2 := ih eg.1 eg.2 e g2 hin
        rw [h2, h1]
      · rw [if_neg hlt] at hin
        exact absurd hin (List.not_mem_nil _)
    cases lzy with
    | true =>
      rw [if_pos rfl] at hm
      rcases List.mem_cons.mp hm with hq | hq
      · exact hbase hq
      · exact hrest hq
    | false =>
      rw [if_neg (by simp)] at hm
      rcases List.mem_append.mp hm with hq | hq
      · exact hrest hq
      · exact hbase (List.mem_singleton.mp hq)

theorem groupFreeB_sound (fl : Flags) (input : List Char) :
    ∀ (p : Re), p.groupFreeB = true →
      ∀ (pos : Nat) (g : GroupsA) (e : Nat) (g2 : GroupsA),
        (e, g2) ∈ Re.matchEnds fl input p pos g → g2 = g := by
  intro p
  induction p with
  | eps =>
    intro _ pos g e g2 hm
    simp only [Re.matchEnds, List.mem_singleton, Prod.mk.injEq] at hm
    exact hm.2
  | chr c =>
    intro _ pos g e g2 hm
    cases hg : input.get? pos with
    | none => simp only [Re.matchEnds, hg, List.not_mem_nil] at hm
    | some d =>
      simp only [Re.matchEnds, hg] at hm
      by_cases hcc : ceq fl.ci d c = true
      · rw [if_pos hcc] at hm
        simp only [List.mem_singleton, Prod.mk.injEq] at hm
        exact hm.2
      · rw [if_neg hcc] at hm
        exact absurd hm (List.not_mem_nil _)
  | cls neg items =>
    intro _ pos g e g2 hm
    cases hg : input.get? pos with
    | none => simp only [Re.matchEnds, hg, List.not_mem_nil] at hm
    | some d =>
      simp only [Re.matchEnds, hg] at hm
      by_cases hcc : clsTest fl.ci neg items d = true
      · rw [if_pos hcc] at hm
        simp only [List.mem_singleton, Prod.mk.injEq] at hm
        exact hm.2
      · rw [if_neg hcc] at hm
        exact absurd hm (List.not_mem_nil _)
  | dot =>
    intro _ pos g e g2 hm
    cases hg : input.get? pos with
    | none => simp only [Re.matchEnds, hg, List.not_mem_nil] at hm
    | some d =>
      simp only [Re.matchEnds, hg] at hm
      by_cases hcc : (fl.dotall || d ≠ '\n') = true
      · rw [if_pos hcc] at hm
        simp only [List.mem_singleton, Prod.mk.injEq] at hm
        exact hm.2
      · rw [if_neg hcc] at hm
        exact absurd hm (List.not_mem_nil _)
  | cat p q ihp ihq =>
    intro hc pos g e g2 hm
    simp only [Re.groupFreeB, Bool.and_eq_true] at hc
    simp only [Re.matchEnds] at hm
    obtain ⟨eg, hmem, hin⟩ := List.mem_flatMap.mp hm
    have h1 : eg.2 = g := ihp hc.1 pos g eg.1 eg.2 (by cases eg; exact hmem)
    have h2 := ihq hc.2 eg.1 eg.2 e g2 hin
    rw [h2, h1]
  | alt p q ihp ihq =>
    intro hc pos g e g2 hm
    simp only [Re.groupFreeB, Bool.and_eq_true] at hc
    simp only [Re.matchEnds] at hm
    rcases List.mem_append.mp hm with hq | hq
    · exact ihp hc.1 pos g e g2 hq
    · exact ihq hc.2 pos g e g2 hq
  | star lzy p ih =>
    intro hc pos g e g2 hm
    simp only [Re.groupFreeB] at hc
    simp only [Re.matchEnds] at hm
    exact starLoop_groupFree (fun s h e' g' hq => ih hc s h e' g' hq) _ pos g e g2 hm
  | opt lzy p ih =>
    intro hc pos g e g2 hm
    simp only [Re.groupFreeB] at hc
    simp only [Re.matchEnds] at hm
    cases lzy with
    | true =>
      rw [if_pos rfl] at hm
      rcases List.mem_cons.mp hm with hq | hq
      · exact congrArg Prod.snd hq
      · exact ih hc pos g e g2 hq
    | false =>
      rw [if_neg (by simp)] at hm
      rcases List.mem_append.mp hm with hq | hq
      · exact ih hc pos g e g2 hq
      · exact congrArg Prod.snd (List.mem_singleton.mp hq)
  | group i p ih => intro hc; simp [Re.groupFreeB] at hc
  | look neg p ih =>
    intro _ pos g e g2 hm
    simp only [Re.matchEnds] at hm
    split_ifs at hm <;>
      simp only [List.mem_singleton, Prod.mk.injEq, List.not_mem_nil] at hm <;>
      exact hm.2
  | lookb neg c =>
    intro _ pos g e g2 hm
    simp only [Re.matchEnds] at hm
    split_ifs at hm <;>
      simp only [List.mem_singleton, Prod.mk.injEq, List.not_mem_nil] at hm <;>
      exact hm.2
  | bol =>
    intro _ pos g e g2 hm
    simp only [Re.matchEnds] at hm
    split_ifs at hm <;>
      simp only [List.mem_singleton, Prod.mk.injEq, List.not_mem_nil] at hm <;>
      exact hm.2
  | wordB =>
    intro _ pos g e g2 hm
    simp only [Re.matchEnds] at hm
    split_ifs at hm <;>
      simp only [List.mem_singleton, Prod.mk.injEq, List.not_mem_nil] at hm <;>
      exact hm.2

theorem matchEnds_chr_elim {fl : Flags} {input : List Char} {c : Char}
    {pos : Nat} {g : GroupsA} {e : Nat} {g2 : GroupsA}
    (hm : (e, g2) ∈ Re.matchEnds fl input (Re.chr c) pos g) :
    e = pos + 1 ∧ g2 = g := by
  cases hg : input.get? pos with
  | none => simp only [Re.matchEnds, hg, List.not_mem_nil] at hm
  | some d =>
    simp only [Re.matchEnds, hg] at hm
    by_cases hcc : ceq fl.ci d c = true
    · rw [if_pos hcc] at hm
      simp only [List.mem_singleton, Prod.mk.injEq] at hm
      exact hm
    · rw [if_neg hcc] at hm
      exact absurd hm (List.not_mem_nil _)

theorem matchEnds_bol_elim {fl : Flags} {input : List Char}
    {pos : Nat} {g : GroupsA} {e : Nat} {g2 : GroupsA}
    (hm : (e, g2) ∈ Re.matchEnds fl input Re.bol pos g) : e = pos ∧ g2 = g := by
  simp only [Re.matchEnds] at hm
  split_ifs at hm <;>
    simp only [List.mem_singleton, Prod.mk.injEq, List.not_mem_nil] at hm <;>
    exact hm

theorem matchEnds_look_elim {fl : Flags} {input : List Char} {neg : Bool} {p : Re}
    {pos : Nat} {g : GroupsA} {e : Nat} {g2 : GroupsA}
    (hm : (e, g2) ∈ Re.matchEnds fl input (Re.look neg p) pos g) :
    e = pos ∧ g2 = g := by
  simp only [Re.matchEnds] at hm
  split_ifs at hm <;>
    simp only [List.mem_singleton, Prod.mk.injEq, List.not_mem_nil] at hm <;>
    exact hm

theorem matchEnds_group_structure {fl : Flags} {input : List Char} {i : Nat} {p : Re}
    {pos : Nat} {g : GroupsA} {e : Nat} {g2 : GroupsA} (hgf : p.groupFreeB = true)
    (hm : (e, g2) ∈ Re.matchEnds fl input (Re.group i p) pos g) :
    g2 = (i, pos, e) :: g := by
  simp only [Re.matchEnds, List.mem_map] at hm
  obtain ⟨eg, hmem, heq⟩ := hm
  have h1 : e = eg.1 := (congrArg Prod.fst heq).symm
  have h2 : g2 = (i, pos, eg.1) :: eg.2 := (congrArg Prod.snd heq).symm
  have h3 : eg.2 = g := groupFreeB_sound fl input p hgf pos g eg.1 eg.2
    (by cases eg; exact hmem)
  rw [h2, h3, h1]

theorem cFuncPat_spans (c : Char) (fl : Flags) (input : List Char) (pos e : Nat)
    (gOut : GroupsA)
    (hm : (e, gOut) ∈ Re.matchEnds fl input (cFuncPat c) pos []) :
    ∃ m1 m2 m3 m4,
      gOut = [(5, m4, e), (4, m3, m4), (3, m2, m3), (2, m1, m2), (1, pos, m1)] ∧
      pos ≤ m1 ∧ m1 + 1 ≤ m2 ∧ m2 ≤ m3 ∧ m3 + 1 ≤ m4 ∧ e = m4 + 1 := by
  have hm0 : (e, gOut) ∈ (Re.matchEnds fl input cFuncG1 pos []).flatMap
      (fun eg => Re.matchEnds fl input
        (Re.cat cFuncG2 (Re.cat cFuncG3 (Re.cat cFuncG4 (Re.group 5 (Re.chr c)))))
        eg.1 eg.2) := hm
  obtain ⟨⟨m1, g1⟩, h1, hr1⟩ := List.mem_flatMap.mp hm0
  have hm1 : (e, gOut) ∈ (Re.matchEnds fl input cFuncG2 m1 g1).flatMap
      (fun eg => Re.matchEnds fl input
        (Re.cat cFuncG3 (Re.cat cFuncG4 (Re.group 5 (Re.chr c)))) eg.1 eg.2) := hr1
  obtain ⟨⟨m2, g2'⟩, h2, hr2⟩ := List.mem_flatMap.mp hm1
  have hm2 : (e, gOut) ∈ (Re.matchEnds fl input cFuncG3 m2 g2').flatMap
      (fun eg => Re.matchEnds fl input
        (Re.cat cFuncG4 (Re.group 5 (Re.chr c))) eg.1 eg.2) := hr2
  obtain ⟨⟨m3, g3'⟩, h3, hr3⟩ := List.mem_flatMap.mp hm2
  have hm3 : (e, gOut) ∈ (Re.matchEnds fl input cFuncG4 m3 g3').flatMap
      (fun eg => Re.matchEnds fl input (Re.group 5 (Re.chr c)) eg.1 eg.2) := hr3
  obtain ⟨⟨m4, g4'⟩, h4, hr4⟩ := List.mem_flatMap.mp hm3
  have hg1 : g1 = [(1, pos, m1)] :=
    matchEnds_group_structure (by rfl)
      (show (m1, g1) ∈ Re.matchEnds fl input (Re.group 1 cFuncG1b) pos [] from h1)
  have hg2 : g2' = (2, m1, m2) :: g1 :=
    matchEnds_group_structure (by rfl)
      (show (m2, g2') ∈ Re.matchEnds fl input (Re.group 2 identRe) m1 g1 from h2)
  have hg3 : g3' = (3, m2, m3) :: g2' :=
    matchEnds_group_structure (by rfl)
      (show (m3, g3') ∈ Re.matchEnds fl input (Re.group 3 cFuncG3b) m2 g2' from h3)
  have hg4 : g4' = (4, m3, m4) :: g3' :=
    matchEnds_group_structure (by rfl)
      (show (m4, g4') ∈ Re.matchEnds fl input (Re.group 4 cWsRe) m3 g3' from h4)
  have hg5 : gOut = (5, m4, e) :: g4' := matchEnds_group_structure (by rfl) hr4
  have he5 : e = m4 + 1 := by
    have hr4' : (e, gOut) ∈ (Re.matchEnds fl input (Re.chr c) m4 g4').map
        (fun eg => (eg.1, (5, m4, eg.1) :: eg.2)) := hr4
    obtain ⟨eg, hmem, heq⟩ := List.mem_map.mp hr4'
    obtain ⟨ee, gg⟩ := eg
    have hce := (matchEnds_chr_elim hmem).1
    have hee : e = ee := (congrArg Prod.fst heq).symm
    omega
  have hp1 : pos ≤ m1 := (matchEnds_bounds fl input cFuncG1 pos [] m1 g1 h1).1
  have hp2 : m1 + 1 ≤ m2 := consumesB_sound fl input cFuncG2 (by rfl) m1 g1 m2 g2' h2
  have hp3 : m2 ≤ m3 := (matchEnds_bounds fl input cFuncG3 m2 g2' m3 g3' h3).1
  have hp4 : m3 + 1 ≤ m4 := consumesB_sound fl input cFuncG4 (by rfl) m3 g3' m4 g4' h4
  exact ⟨m1, m2, m3, m4, by rw [hg5, hg4, hg3, hg2, hg1], hp1, hp2, hp3, hp4, he5⟩

theorem javaMethodPat_spans (fl : Flags) (input : List Char) (pos e : Nat)
    (gOut : GroupsA)
    (hm : (e, gOut) ∈ Re.matchEnds fl input javaMethodRule.pat pos []) :
    ∃ m1 m2,
      gOut = [(3, m2, e), (2, m1, m2), (1, pos, m1)] ∧
      pos + 1 ≤ m1 ∧ m1 + 1 ≤ m2 ∧ m2 + 1 ≤ e := by
  have hm0 : (e, gOut) ∈ (Re.matchEnds fl input Re.bol pos []).flatMap
      (fun eg => Re.matchEnds fl input
        (Re.cat javaMethodG1 (Re.cat javaMethodG2 (Re.cat javaMethodG3
          (Re.look false javaMethodLook)))) eg.1 eg.2) := hm
  obtain ⟨⟨p0, g0⟩, h0, hr0⟩ := List.mem_flatMap.mp hm0
  obtain ⟨hb1, hb2⟩ := matchEnds_bol_elim h0
  subst hb1
  subst hb2
  have hm1 : (e, gOut) ∈ (Re.matchEnds fl input javaMethodG1 p0 []).flatMap
      (fun eg => Re.matchEnds fl input
        (Re.cat javaMethodG2 (Re.cat javaMethodG3 (Re.look false javaMethodLook)))
        eg.1 eg.2) := hr0
  obtain ⟨⟨m1, g1⟩, h1, hr1⟩ := List.mem_flatMap.mp hm1
  have hm2 : (e, gOut) ∈ (Re.matchEnds fl input javaMethodG2 m1 g1).flatMap
      (fun eg => Re.matchEnds fl input
        (Re.cat javaMethodG3 (Re.look false javaMethodLook)) eg.1 eg.2) := hr1
  obtain ⟨⟨m2, g2'⟩, h2, hr2⟩ := List.mem_flatMap.mp hm2
  have hm3 : (e, gOut) ∈ (Re.matchEnds fl input javaMethodG3 m2 g2').flatMap
      (fun eg => Re.matchEnds fl input (Re.look false javaMethodLook) eg.1 eg.2) :=
    hr2
  obtain ⟨⟨m3, g3'⟩, h3, hr3⟩ := List.mem_flatMap.mp hm3
  obtain ⟨hl1, hl2⟩ := matchEnds_look_elim hr3
  have hg1 : g1 = [(1, p0, m1)] :=
    matchEnds_group_structure (by rfl)
      (show (m1, g1) ∈ Re.matchEnds fl input (Re.group 1 javaMethodG1b) p0 [] from h1)
  have hg2 : g2' = (2, m1, m2) :: g1 :=
    matchEnds_group_structure (by rfl)
      (show (m2, g2') ∈ Re.matchEnds fl input (Re.group 2 identRe) m1 g1 from h2)
  have hg3 : g3' = (3, m2, m3) :: g2' :=
    matchEnds_group_structure (by rfl)
      (show (m3, g3') ∈ Re.matchEnds fl input (Re.group 3 javaMethodG3b) m2 g2' from h3)
  have hp1 : p0 + 1 ≤ m1 :=
    consumesB_sound fl input javaMethodG1 (by rfl) p0 [] m1 g1 h1
  have hp2 : m1 + 1 ≤ m2 := consumesB_sound fl input javaMethodG2 (by rfl) m1 g1 m2 g2' h2
  have hp3 : m2 + 1 ≤ m3 :=
    consumesB_sound fl input javaMethodG3 (by rfl) m2 g2' m3 g3' h3
  refine ⟨m1, m2, ?_, hp1, hp2, by omega⟩
  rw [hl2, hg3, hg2, hg1, hl1]

theorem actNoSelf_no_self {a : Act} {gs : List GAct} {j : Nat}
    (h : actNoSelf a = true) (hact : a = .grouped gs)
    (hj : gs.get? j = some .self) : False := by
  subst hact
  simp only [actNoSelf] at h
  rw [List.all_eq_true] at h
  have hmem : GAct.self ∈ gs := List.get?_mem hj
  have := h _ hmem
  simp [gactNoSelf] at this

theorem noDelegation_selfSpansShort {tbl : ExpTable} (h : noDelegation tbl = true)
    (fl : Flags) : selfSpansShort tbl fl := by
  intro input sname rs r pos e g gs j s t hs hr hpos hhead hact hj hlook
  exact (actNoSelf_no_self (noDelegation_rule h hs hr) hact hj).elim

theorem cStates_selfSpansShort : selfSpansShort cStates cFlags := by
  intro input sname rs r pos e g gs j s t hs hr hpos hhead hact hj hlook
  have hclass : cStates.all (fun q => q.2.all fun rr =>
      actNoSelf rr.act || rr == cFuncDefRule || rr == cFuncDeclRule) = true := by
    decide
  rw [List.all_eq_true] at hclass
  have h1 := hclass _ hs
  rw [List.all_eq_true] at h1
  have h2 := h1 _ hr
  simp only [Bool.or_eq_true, beq_iff_eq] at h2
  rcases h2 with (hns | hdef) | hdecl
  · exact (actNoSelf_no_self hns hact hj).elim
  · subst hdef
    have hgs : [GAct.self, .kind Tok.nameFunction, .self, .kind Tok.text,
        .kind Tok.keyword] = gs := by
      injection hact
    subst hgs
    have hmm := head?_mem hhead
    obtain ⟨m1, m2, m3, m4, hg, hp1, hp2, hp3, hp4, hp5⟩ :=
      cFuncPat_spans '{' cFlags input pos e g hmm
    have hel : e ≤ input.length :=
      (matchEnds_bounds cFlags input (cFuncPat '{') pos [] e g hmm).2 (by omega)
    subst hg
    rcases j with _ | _ | _ | _ | _ | j
    · simp [lookupGroup] at hlook
      omega
    · simp at hj
    · simp [lookupGroup] at hlook
      omega
    · simp at hj
    · simp at hj
    · simp at hj
  · subst hdecl
    have hgs : [GAct.self, .kind Tok.nameFunction, .self, .kind Tok.text,
        .kind Tok.text] = gs := by
      injection hact
    subst hgs
    have hmm := head?_mem hhead
    obtain ⟨m1, m2, m3, m4, hg, hp1, hp2, hp3, hp4, hp5⟩ :=
      cFuncPat_spans ';' cFlags input pos e g hmm
    have hel : e ≤ input.length :=
      (matchEnds_bounds cFlags input (cFuncPat ';') pos [] e g hmm).2 (by omega)
    subst hg
    rcases j with _ | _ | _ | _ | _ | j
    · simp [lookupGroup] at hlook
      omega
    · simp at hj
    · simp [lookupGroup] at hlook
      omega
    · simp at hj
    · simp at hj
    · simp at hj

theorem javaStates_selfSpansShort : selfSpansShort javaStates javaFlags := by
  intro input sname rs r pos e g gs j s t hs hr hpos hhead hact hj hlook
  have hclass : javaStates.all (fun q => q.2.all fun rr =>
      actNoSelf rr.act || rr == javaMethodRule) = true := by
    decide
  rw [List.all_eq_true] at hclass
  have h1 := hclass _ hs
  rw [List.all_eq_true] at h1
  have h2 := h1 _ hr
  simp only [Bool.or_eq_true, beq_iff_eq] at h2
  rcases h2 with hns | hmeth
  · exact (actNoSelf_no_self hns hact hj).elim
  · subst hmeth
    have hgs : [GAct.self, .kind Tok.nameFunction, .self] = gs := by
      injection hact
    subst hgs
    have hmm := head?_mem hhead
    obtain ⟨m1, m2, hg, hp1, hp2, hp3⟩ :=
      javaMethodPat_spans javaFlags input pos e g hmm
    have hel : e ≤ input.length :=
      (matchEnds_bounds javaFlags input javaMethodRule.pat pos [] e g hmm).2 (by omega)
    subst hg
    rcases j with _ | _ | _ | j
    · simp [lookupGroup] at hlook
      omega
    · simp at hj
    · simp [lookupGroup] at hlook
      omega
    · simp at hj

theorem emitGroups_isSome {nest : List Char → Res} {input : List Char} {g : GroupsA} :
    ∀ {gs : List GAct} {i : Nat},
      (∀ (j s t : Nat), gs.get? j = some .self → lookupGroup g (i + j) = some (s, t) →
        (nest (sliceOf input s t)).isSome = true) →
      (emitGroups nest input g gs i).isSome = true := by
  intro gs
  induction gs with
  | nil => intro i _; rfl
  | cons ga rest ih =>
    intro i hn
    have hn' : ∀ (j s t : Nat), rest.get? j = some .self →
        lookupGroup g (i + 1 + j) = some (s, t) →
        (nest (sliceOf input s t)).isSome = true := by
      intro j s t hj hl
      refine hn (j + 1) s t hj ?_
      have he : i + (j + 1) = i + 1 + j := by omega
      rw [he]
      exact hl
    cases ga with
    | kind k =>
      cases hl : lookupGroup g i with
      | none =>
        simp only [emitGroups, hl]
        exact ih hn'
      | some st =>
        obtain ⟨s, t⟩ := st
        simp only [emitGroups, hl, consRes_isSome]
        exact ih hn'
    | self =>
      cases hl : lookupGroup g i with
      | none =>
        simp only [emitGroups, hl]
        exact ih hn'
      | some st =>
        obtain ⟨s, t⟩ := st
        have hns := hn 0 s t rfl (by simpa using hl)
        simp only [emitGroups, hl]
        cases hnest : nest (sliceOf input s t) with
        | none => rw [hnest] at hns; simp at hns
        | some x =>
          cases x with
          | error er => simp only [hnest, Option.isSome_some]
          | ok ts => simp only [hnest, appendRes_isSome]; exact ih hn'

theorem emitAction_isSome {nest : List Char → Res} {input : List Char}
    {pos e : Nat} {g : GroupsA} {a : Act}
    (hn : ∀ (gs : List GAct) (j s t : Nat), a = .grouped gs → gs.get? j = some .self →
      lookupGroup g (1 + j) = some (s, t) → (nest (sliceOf input s t)).isSome = true) :
    (emitAction nest input pos e g a).isSome = true := by
  cases a with
  | simple k => rfl
  | grouped gs => exact emitGroups_isSome (fun j s t hj hl => hn gs j s t rfl hj hl)

theorem scanAux_total_aux (tbl : ExpTable) (fl : Flags) (bound D : Nat)
    (input : List Char)
    (hnest : ∀ (s : List Char) (fuel : Nat), s.length < input.length → D ≤ fuel →
      (scanAux tbl fl bound fuel s 0 ["root"] bound).isSome = true)
    (hsd : selfSpansShort tbl fl) :
    ∀ (fuel pos : Nat) (stk : List String) (guard : Nat),
      (input.length - pos) * (bound + 1) + guard + 1 + D ≤ fuel →
      (scanAux tbl fl bound fuel input pos stk guard).isSome = true := by
  intro fuel
  induction fuel with
  | zero => intro pos stk guard hf; omega
  | succ fuel ih =>
    intro pos stk guard hf
    by_cases hlt : pos < input.length
    · simp only [scanAux]
      rw [if_pos hlt]
      cases hfa : firstAccepted fl input pos stk
          ((lookupState tbl (stk.headD "root")).getD []) with
      | none =>
        rw [consRes_isSome]
        apply ih
        have h1 : input.length - pos = (input.length - (pos + 1)) + 1 := by omega
        rw [h1, Nat.succ_mul] at hf
        omega
      | some reg =>
        obtain ⟨r, e, g⟩ := reg
        obtain ⟨hrmem, hhead⟩ := firstAccepted_mem hfa
        cases hls : lookupState tbl (stk.headD "root") with
        | none => rw [hls] at hrmem; simp at hrmem
        | some rs =>
          rw [hls] at hrmem
          simp only [Option.getD_some] at hrmem
          have hsmem := lookupState_mem hls
          have hea : (emitAction (fun s => scanAux tbl fl bound fuel s 0 ["root"] bound)
              input pos e g r.act).isSome = true := by
            apply emitAction_isSome
            intro gs j s t hact hj hl
            have hshort : t - s < input.length :=
              hsd input _ rs r pos e g gs j s t hsmem hrmem hlt hhead hact hj
                (Nat.add_comm 1 j ▸ hl)
            have hslen : (sliceOf input s t).length < input.length := by
              have hle : (sliceOf input s t).length ≤ t - s := by
                unfold sliceOf
                exact List.length_take_le _ _
              omega
            exact hnest _ fuel hslen (by omega)
          cases hea2 : emitAction (fun s => scanAux tbl fl bound fuel s 0 ["root"] bound)
              input pos e g r.act with
          | none => rw [hea2] at hea; simp at hea
          | some x =>
            cases x with
            | error er => simp only [hea2, Option.isSome_some]
            | ok ts0 =>
              simp only [hea2]
              by_cases hadv : pos < e
              · rw [if_pos hadv, appendRes_isSome]
                apply ih
                have h1 : input.length - pos = (input.length - (pos + 1)) + 1 := by omega
                have h2 : input.length - e ≤ input.length - (pos + 1) := by omega
                have h3 : (input.length - e) * (bound + 1) ≤
                    (input.length - (pos + 1)) * (bound + 1) :=
                  Nat.mul_le_mul_right _ h2
                rw [h1, Nat.succ_mul] at hf
                omega
              · rw [if_neg hadv]
                by_cases hg0 : guard = 0
                · rw [if_pos hg0]
                  rfl
                · rw [if_neg hg0, appendRes_isSome]
                  apply ih
                  omega
    · simp only [scanAux]
      rw [if_neg hlt]
      rfl

theorem scanAux_total (tbl : ExpTable) (fl : Flags) (bound : Nat)
    (hsd : selfSpansShort tbl fl) :
    ∀ (L : Nat) (input : List Char), input.length ≤ L →
      ∀ (fuel : Nat), needFuel bound L ≤ fuel →
      (scanAux tbl fl bound fuel input 0 ["root"] bound).isSome = true := by
  intro L
  induction L with
  | zero =>
    intro input hlen fuel hfuel
    cases fuel with
    | zero => simp [needFuel] at hfuel
    | succ f =>
      simp only [scanAux]
      rw [if_neg (by omega)]
      rfl
  | succ L ihL =>
    intro input hlen fuel hfuel
    have haux := scanAux_total_aux tbl fl bound (needFuel bound L) input
      (fun s fuel' hslen hD => ihL s (by omega) fuel' hD) hsd fuel 0 ["root"] bound
    apply haux
    have h1 : input.length * (bound + 1) ≤ (L + 1) * (bound + 1) :=
      Nat.mul_le_mul_right _ hlen
    have h2 : needFuel bound (L + 1) = (L + 2) * (bound + 1) + 1 + needFuel bound L := rfl
    have h3 : (L + 2) * (bound + 1) = (L + 1) * (bound + 1) + (bound + 1) :=
      Nat.succ_mul _ _
    rw [Nat.sub_zero]
    omega

/-! ## Claim theorems -/

/-- C1: Coverage invariant — for every constructed lexer table whose rules
satisfy the grouped-emission partition contract (`coverOK`, automatic for
simple actions) and every input, a completed scan's tokens concatenate
exactly to the input, with spans in order, non-overlapping and contiguous
from 0 to the input length. -/
theorem claim_coverage (tbl : ExpTable) (fl : Flags) (bound fuel : Nat)
    (input : List Char) (toks : List Token)
    (hcov : ∀ s : List Char, coverOK tbl fl s = true)
    (h : scanAux tbl fl bound fuel input 0 ["root"] bound = some (.ok toks)) :
    concatSlices toks = input ∧ chainB 0 toks input.length = true := by
  obtain ⟨h1, h2⟩ :=
    scanAux_cover tbl fl bound hcov fuel input 0 ["root"] bound toks (Nat.zero_le _) h
  rw [sliceOf_all] at h1
  exact ⟨h1, h2⟩

/-- C1 witness: the all-simple scenario lexer on `"12ab"`. -/
theorem claim_coverage_witness :
    concatSlices [⟨0, 2, Tok.number, "12".toList⟩, ⟨2, 4, Tok.word, "ab".toList⟩] =
      "12ab".toList ∧
    chainB 0 [⟨0, 2, Tok.number, "12".toList⟩, ⟨2, 4, Tok.word, "ab".toList⟩]
      ("12ab".toList).length = true :=
  claim_coverage scnStates scnFlags 5 31 ("12ab".toList)
    [⟨0, 2, Tok.number, "12".toList⟩, ⟨2, 4, Tok.word, "ab".toList⟩]
    (fun s => allSimple_coverOK scnStates rfl scnFlags s) rfl

/-- C2: Termination — for every table whose delegations re-scan strict
substrings, fuel `needFuel bound |input|` suffices for the scan to return
a result (token stream or `loopGuard` error) on any input from the
initial stack; all four lexers satisfy that property (CLexer's and
JavaLexer's `using(this)` groups are strict substrings of their matches,
CppLexer and DelphiLexer do not delegate at all), so every scan of every
one of them terminates — including CLexer with its zero-length
empty-pattern rule, whose stack-changing requirement and the loop guard
bound the zero-progress steps; and on a hostile table of zero-length
stack-changing rules the scan stops with the `loopGuard` error rather
than looping. -/
theorem claim_termination :
    (∀ (tbl : ExpTable) (fl : Flags) (bound : Nat) (input : List Char) (fuel : Nat),
      selfSpansShort tbl fl → needFuel bound input.length ≤ fuel →
      (scanAux tbl fl bound fuel input 0 ["root"] bound).isSome = true) ∧
    selfSpansShort cStates cFlags ∧
    selfSpansShort cppStates cFlags ∧
    selfSpansShort delphiStates delphiFlags ∧
    selfSpansShort javaStates javaFlags ∧
    scanAux hostileStates scnFlags 2 30 ("x".toList) 0 ["root"] 2 =
      some (.error .loopGuard) := by
  refine ⟨?_, cStates_selfSpansShort, ?_, ?_, javaStates_selfSpansShort, rfl⟩
  · intro tbl fl bound input fuel hsd hfuel
    exact scanAux_total tbl fl bound hsd input.length input (le_refl _) fuel hfuel
  · exact noDelegation_selfSpansShort (by decide) cFlags
  · exact noDelegation_selfSpansShort (by decide) delphiFlags

/-- C2 witness: CLexer — which delegates via `using(this)` and carries the
zero-length `('', Text, 'statement')` rule — scanned over `"@#"`. -/
theorem claim_termination_witness :
    (scanAux cStates cFlags 2 (needFuel 2 ("@#".toList).length) ("@#".toList) 0
      ["root"] 2).isSome = true :=
  claim_termination.1 cStates cFlags 2 ("@#".toList)
    (needFuel 2 ("@#".toList).length) claim_termination.2.1 (le_refl _)

/-- C3: First-match-wins — scanning `"ending"` in DelphiLexer's `'asm'`
state selects the first-declared rule `r'end'` (a `Keyword` over `[0, 3)`
with a pop transition, after which `'root'` reads `"ing"` as a `Name`),
even though the later identifier rule of `'asm'` (index 8 of the expanded
state) matches the strictly longer span `[0, 6)` at the same offset. -/
theorem claim_first_match_wins :
    scanAux delphiStates delphiFlags 7 40 ("ending".toList) 0 ["asm", "root"] 7 =
      some (.ok [⟨0, 3, Tok.keyword, "end".toList⟩, ⟨3, 6, Tok.name, "ing".toList⟩]) ∧
    (((lookupState delphiStates "asm").getD []).get? 0).map (fun r => r.trans) =
      some .pop ∧
    (((lookupState delphiStates "asm").getD []).get? 8).map
      (fun r => (r.pat.matchEnds delphiFlags ("ending".toList) 0 []).head?) =
      some (some (6, [])) :=
  ⟨rfl, rfl, rfl⟩

/-- C4: Fallback recovery — whenever no rule of the active state is
accepted at an offset inside the input, the scan step emits exactly one
one-character `error` token at that offset, advances by one, keeps the
stack unchanged, and raises nothing (the step is the continuation with
one token prepended). -/
theorem claim_fallback_recovery (tbl : ExpTable) (fl : Flags) (bound fuel : Nat)
    (input : List Char) (pos : Nat) (stk : List String) (guard : Nat)
    (h1 : pos < input.length)
    (h2 : firstAccepted fl input pos stk
      ((lookupState tbl (stk.headD "root")).getD []) = none) :
    scanAux tbl fl bound (fuel + 1) input pos stk guard =
      consRes ⟨pos, pos + 1, Tok.error, sliceOf input pos (pos + 1)⟩
        (scanAux tbl fl bound fuel input (pos + 1) stk bound) := by
  simp only [scanAux]
  rw [if_pos h1]
  simp only [h2]

/-- C4 witness: CLexer's `'statement'` state at the `'#'` of `"a #"`
(not at line start), where no rule matches. -/
theorem claim_fallback_recovery_witness :
    (firstAccepted cFlags ("a #".toList) 2 ["statement", "root"]
      ((lookupState cStates (["statement", "root"].headD "root")).getD [])).isNone
      = true ∧
    scanAux cStates cFlags 4 9 ("a #".toList) 2 ["statement", "root"] 4 =
      consRes ⟨2, 3, Tok.error, sliceOf ("a #".toList) 2 3⟩
        (scanAux cStates cFlags 4 8 ("a #".toList) 3 ["statement", "root"] 4) :=
  ⟨rfl, claim_fallback_recovery cStates cFlags 4 8 ("a #".toList) 2
    ["statement", "root"] 4 (by decide) rfl⟩

/-- C5: Fallback idempotence — on a table none of whose rules matches any
character of the input (zero-length matches with empty captures aside,
such as CLexer's `('', Text, 'statement')`), and which never emits the
reserved `error` kind itself, a completed scan emits exactly
`input.length` `error` tokens, each exactly one character, in input
order. -/
theorem claim_fallback_idempotence (tbl : ExpTable) (fl : Flags) (bound fuel : Nat)
    (input : List Char) (toks : List Token)
    (hz : zeroMatchOnly tbl fl input = true)
    (hne : noErrorEmit tbl = true)
    (h : scanAux tbl fl bound fuel input 0 ["root"] bound = some (.ok toks)) :
    toks.filter (fun t => t.kind == Tok.error) =
      (List.range input.length).map
        (fun i => ⟨i, i + 1, Tok.error, sliceOf input i (i + 1)⟩) := by
  have h2 := scanAux_zeroOnly tbl fl bound input hz hne fuel 0 ["root"] bound toks
    (Nat.zero_le _) h
  rw [Nat.sub_zero] at h2
  rw [List.range_eq_range']
  exact h2

/-- C5 witness: a table in CLexer-root shape (one zero-length push rule,
an empty target state) on `"ab"`: one empty `text` token plus exactly two
one-character `error` tokens. -/
theorem claim_fallback_idempotence_witness :
    zeroMatchOnly zeroStates scnFlags ("ab".toList) = true ∧
    (([⟨0, 0, Tok.text, []⟩, ⟨0, 1, Tok.error, "a".toList⟩,
        ⟨1, 2, Tok.error, "b".toList⟩] : List Token).filter
        (fun t => t.kind == Tok.error)) =
      (List.range ("ab".toList).length).map
        (fun i => ⟨i, i + 1, Tok.error, sliceOf ("ab".toList) i (i + 1)⟩) :=
  ⟨rfl, claim_fallback_idempotence zeroStates scnFlags 3 20 ("ab".toList)
    [⟨0, 0, Tok.text, []⟩, ⟨0, 1, Tok.error, "a".toList⟩, ⟨1, 2, Tok.error, "b".toList⟩]
    rfl rfl rfl⟩

/-- C6: Inclusion expansion — all four lexer tables (acyclic inclusion
graphs) expand successfully at construction; a cyclic table fails with
`CyclicInclusion`; and inclusions are spliced in place preserving order:
Delphi `'property'` expands to its two own rules followed by the whole
expansion of `'root'`, which itself carries the three `'comments'` rules
spliced at positions 9–11.  (Determinism is definitional: `expandAll` is
a pure function of the raw table.) -/
theorem claim_inclusion_expansion :
    (expandAll cRaw).toOption.isSome = true ∧
    (expandAll cppRaw).toOption.isSome = true ∧
    (expandAll delphiRaw).toOption.isSome = true ∧
    (expandAll javaRaw).toOption.isSome = true ∧
    expandAll cycRaw = .error (.cyclicInclusion "a") ∧
    (lookupState delphiStates "property").getD [] =
      (⟨Re.chr ';', .simple Tok.text, .pop⟩ : Rule) ::
        (⟨Re.cat (Re.group 1 (kwords ["read", "write"])) Re.wordB,
          .simple Tok.keyword, .stay⟩ : Rule) ::
        (lookupState delphiStates "root").getD [] ∧
    (lookupState delphiStates "root").getD [] =
      ((lookupState delphiStates "root").getD []).take 9 ++
        (lookupState delphiStates "comments").getD [] ++
        ((lookupState delphiStates "root").getD []).drop 12 :=
  ⟨rfl, rfl, rfl, rfl, rfl, rfl, rfl⟩

/-- C7: Scenario — the lexer with `root = [(r"\d+", Number), (r"[a-z]+", Word)]`
on `"12ab"` from initial stack `["root"]` yields exactly
`[(0, 2, Number, "12"), (2, 4, Word, "ab")]`. -/
theorem claim_scenario :
    runScan scnStates scnFlags ("12ab".toList) =
      some (.ok [⟨0, 2, Tok.number, "12".toList⟩, ⟨2, 4, Tok.word, "ab".toList⟩]) :=
  rfl

/-- C8: Stack round-trip — on any non-empty stack, a `push(S)` (or a
`'#push'`) followed immediately by a `pop()` restores the stack, hence
the active state, exactly. -/
theorem claim_stack_roundtrip (st : List String) (S : String) (h : st ≠ []) :
    applyTrans .pop (applyTrans (.push S) st) = st ∧
    applyTrans .pop (applyTrans .pushSelf st) = st := by
  cases st with
  | nil => exact absurd rfl h
  | cons a rest => exact ⟨rfl, rfl⟩

/-- C8 witness: CLexer's `'function'` state pushed over `["root"]` and
its `'#push'` over `["function", "root"]`. -/
theorem claim_stack_roundtrip_witness :
    applyTrans .pop (applyTrans (.push "function") ["root"]) = ["root"] ∧
    applyTrans .pop (applyTrans .pushSelf ["function", "root"]) =
      ["function", "root"] :=
  ⟨(claim_stack_roundtrip ["root"] "function" (by simp)).1,
   (claim_stack_roundtrip ["function", "root"] "function" (by simp)).2⟩

/-- C9: Pop safety — `pop()` on a single-element stack is a no-op, and no
transition ever empties a non-empty stack, so the stack stays non-empty
for the whole scan and a bottom `pop()` is never an error (the scan error
type has no underflow case at all). -/
theorem claim_pop_safety :
    (∀ s : String, applyTrans .pop [s] = [s]) ∧
    (∀ (tr : Transition) (stk : List String), stk ≠ [] → applyTrans tr stk ≠ []) := by
  constructor
  · intro s
    rfl
  · intro tr stk h
    cases stk with
    | nil => exact absurd rfl h
    | cons a rest =>
      cases tr with
      | stay => simp [applyTrans]
      | push s => simp [applyTrans]
      | pushSelf => simp [applyTrans]
      | pop =>
        cases rest with
        | nil => simp [applyTrans]
        | cons b r2 => simp [applyTrans]

/-- C9 witness: a bottom pop on `["root"]` is a no-op; a pop on a
two-element stack stays non-empty. -/
theorem claim_pop_safety_witness :
    applyTrans .pop ["root"] = ["root"] ∧
    applyTrans .pop ["statement", "root"] ≠ [] :=
  ⟨claim_pop_safety.1 "root",
   claim_pop_safety.2 .pop ["statement", "root"] (by simp)⟩

/-- C10: Table closure — in each of the four lexers' raw tables, every
push-transition target and every include target names a state defined in
that same table, and every table defines `'root'`. -/
theorem claim_table_closure :
    tableClosed cRaw = true ∧ tableClosed cppRaw = true ∧
    tableClosed delphiRaw = true ∧ tableClosed javaRaw = true :=
  ⟨rfl, rfl, rfl, rfl⟩
